import Mathlib

/-!
Verification development for the flatmap-maker classification core.

Shallow embedding of:
  * `src/mapmaker/shapes/classify.py`      (`ShapeClassifier`)
  * `src/mapmaker/shapes/shapefilter.py`   (`ShapeFilter`)
  * `src/mapmaker/sources/fc_powerpoint/connections.py`
        (`direction`, `similar_direction`, `ConnectionGraph`,
         `ConnectionClassifier`)
  * `src/mapmaker/sources/fc_powerpoint/components.py` (enumerations, `Connection`)

External geometric capabilities (shapely predicates, spatial indexes, the
line/text finders) are modelled as explicit function parameters, mirroring
the specification's treatment of them as external collaborators.
Python floats are modelled as rationals where only comparisons matter and
as reals where square roots are involved; fallible Python code (raised
exceptions) is modelled with `Except`.
-/

namespace Flatmap

/-- Python exception classes that the modelled code can raise. -/
inductive PyError
  | typeError
  | attributeError
  | indexError
  deriving DecidableEq, Repr

/-- SHAPE_TYPE from `mapmaker/sources/shape.py` (constructors used by the
classifier; the source enumeration has no others that matter here). -/
inductive SHAPE_TYPE
  | UNKNOWN
  | TEXT
  | BOUNDARY
  | CONTAINER
  | COMPONENT
  | CONNECTION
  | FEATURE
  | LAYER
  deriving DecidableEq, Repr

/-- FC_KIND from `fc_powerpoint/components.py` (the constructors the
connection classifier branches on). -/
inductive FC_KIND
  | UNKNOWN
  | NEURON
  | CONNECTOR_JOINER
  | CONNECTOR_FREE_END
  | CONNECTOR_NODE
  | CONNECTOR_PORT
  | CONNECTOR_THROUGH
  deriving DecidableEq, Repr

/-- FC_CLASS from `fc_powerpoint/components.py` (connector and connection
classes; the other constructors play no role in the claims). -/
inductive FC_CLASS
  | UNKNOWN
  | NEURAL
  | VASCULAR
  deriving DecidableEq, Repr

/-! ## ConnectionGraph (`connections.py`, lines 62-122)

An undirected `networkx` graph whose nodes are connector identifiers and
whose edges carry the `Connection` object and the crossed-component list.
`nx.Graph.add_edge` inserts missing endpoints, replaces the data of an
existing edge, and accepts self loops. -/

/-- The `Connection` entity of `fc_powerpoint/components.py` (lines 288-294),
restricted to the fields the connection code reads and writes. -/
structure ConnectionM where
  id : String
  connectorIds : List String
  intermediateConnectors : List String
  description : String
  geometry : List (ℚ × ℚ)
  exclude : Bool := false
  deriving DecidableEq, Repr

/-- One edge of a `ConnectionGraph`: the two endpoint connector ids, the
connection's id and the crossed-component ids stored as edge data. -/
structure CGEdge where
  n0 : String
  n1 : String
  connectionId : String
  components : List String
  deriving DecidableEq, Repr

/-- Undirected-equality of edge endpoint pairs. -/
def sameEdge (a b x y : String) : Bool :=
  (a = x && b = y) || (a = y && b = x)

/-- The `nx.Graph` held by a `ConnectionGraph`. -/
structure ConnectionGraphM where
  nodes : List String
  edges : List CGEdge
  deriving DecidableEq, Repr

namespace ConnectionGraphM

/-- The empty graph of `ConnectionGraph.__init__`. -/
def empty : ConnectionGraphM := ⟨[], []⟩

/-- Insert a node if it is not already present (`nx` semantics). -/
def addNode (ns : List String) (a : String) : List String :=
  if a ∈ ns then ns else ns ++ [a]

/-- The effect of `nx.Graph.add_edge`: both endpoints become nodes and the
edge (with its data) replaces any previous edge between them. -/
def addEdge (g : ConnectionGraphM) (a b : String) (connId : String)
    (comps : List String) : ConnectionGraphM :=
  { g with
    nodes := addNode (addNode g.nodes a) b,
    edges := ⟨a, b, connId, comps⟩ ::
      g.edges.filter (fun e => !(sameEdge e.n0 e.n1 a b)) }

/-- `ConnectionGraph.add_connection` (`connections.py`, lines 71-76): an edge
is added exactly when the connection carries two connector ids. -/
def add_connection (g : ConnectionGraphM) (connection : ConnectionM)
    (componentIds : List String) : ConnectionGraphM :=
  if connection.connectorIds.length = 2 then
    addEdge g (connection.connectorIds.getD 0 "")
      (connection.connectorIds.getD 1 "") connection.id componentIds
  else g

/-- `ConnectionGraph.remove_edge` (`connections.py`, lines 120-122). -/
def removeEdge (g : ConnectionGraphM) (a b : String) : ConnectionGraphM :=
  { g with edges := g.edges.filter (fun e => !(sameEdge e.n0 e.n1 a b)) }

/-- Whether an (undirected) edge joins `a` and `b`. -/
def hasEdge (g : ConnectionGraphM) (a b : String) : Bool :=
  g.edges.any (fun e => sameEdge e.n0 e.n1 a b)

end ConnectionGraphM

/-! ## Segment-splice acceptance actions (`connections.py`, lines 330-342)

The state reached when `ConnectionClassifier.add_connection` has decided to
splice `connection` with `join_connection` at the shared connector
(`similar_direction` returned true).  The fields capture exactly the objects
the accepted-splice code mutates; `coords0` and `coords1` are the two
coordinate lists already oriented by lines 307-329. -/
structure SpliceCtx where
  graph : ConnectionGraphM
  connectorId : String
  connectorKind : FC_KIND
  connectorExclude : Bool
  neighbour : String
  joinNodes : List String
  joinConnection : ConnectionM
  connection : ConnectionM
  coords0 : List (ℚ × ℚ)
  coords1 : List (ℚ × ℚ)
  deriving DecidableEq, Repr

/-- The state after a successfully executed splice. -/
structure SpliceResult where
  graph : ConnectionGraphM
  connectorExclude : Bool
  joinNodes : List String
  joinConnection : ConnectionM
  connection : ConnectionM
  deriving DecidableEq, Repr

/-- The accepted-splice block of `ConnectionClassifier.add_connection`
(`connections.py`, lines 330-342), statement by statement:
remove the old graph edge; for a JOINER connector set `exclude`, while for a
THROUGH connector the source executes
`connection.intermediate_connectors.append[connector.id]` — subscripting the
bound `append` method instead of calling it, which Python rejects with
`TypeError: 'builtin_function_or_method' object is not subscriptable`;
then exclude the old connection, drop the join node, concatenate the two
coordinate lists into the surviving geometry, and repoint the surviving
connection's far endpoint at the old connection's remaining endpoint
(`join_connection.connector_ids.pop()`, which raises IndexError on an empty
list). -/
def spliceAccept (ctx : SpliceCtx) : Except PyError SpliceResult := do
  let graph := ctx.graph.removeEdge ctx.connectorId ctx.neighbour
  let (connectorExclude, connection) ←
    if ctx.connectorKind = FC_KIND.CONNECTOR_JOINER then
      Except.ok (true, ctx.connection)
    else if ctx.connectorKind = FC_KIND.CONNECTOR_THROUGH then
      Except.error PyError.typeError
    else
      Except.ok (ctx.connectorExclude, ctx.connection)
  let joinConnection := { ctx.joinConnection with exclude := true }
  let joinNodes := ctx.joinNodes.erase ctx.connectorId
  let connection := { connection with geometry := ctx.coords0 ++ ctx.coords1 }
  let joinConnection :=
    { joinConnection with connectorIds := joinConnection.connectorIds.erase ctx.connectorId }
  let connection :=
    { connection with connectorIds := connection.connectorIds.erase ctx.connectorId }
  match joinConnection.connectorIds.getLast? with
  | none => Except.error PyError.indexError
  | some newEnd =>
      Except.ok
        { graph := graph,
          connectorExclude := connectorExclude,
          joinNodes := joinNodes,
          joinConnection :=
            { joinConnection with connectorIds := joinConnection.connectorIds.dropLast },
          connection :=
            { connection with connectorIds := connection.connectorIds ++ [newEnd] } }

/-! ## ShapeFilter (`shapefilter.py`) -/

/-- The comparison tuple built by `CommonAttributes.__init__`
(`shapefilter.py`, lines 36-46): shape name, colour and opacity, plus the
reference shape recorded for the `as_dict` annotation. -/
structure CommonAttrs where
  name : String
  colour : Option String
  opacity : ℚ
  globalShapeId : String
  deriving DecidableEq, Repr

/-- Equality as implemented by `CommonAttributes.__eq__`: only name, colour
and opacity are compared (the recorded global shape is ignored). -/
def attrsEq (a b : CommonAttrs) : Bool :=
  a.name = b.name && a.colour = b.colour && a.opacity = b.opacity

/-- External geometric capabilities used by the filter: polygon test,
intersection predicate, intersection area and area. -/
structure FilterOps (γ : Type) where
  isPolygonal : γ → Bool
  intersects : γ → γ → Bool
  interArea : γ → γ → ℚ
  area : γ → ℚ

/-- A shape as seen by the filter: optional geometry, the attributes feeding
`CommonAttributes`, and the mutable properties the filter writes. -/
structure FShape (γ : Type) where
  id : String
  geometry : Option γ
  name : String
  colour : Option String
  opacity : ℚ
  exclude : Bool := false
  annotated : Option CommonAttrs := none
  deriving DecidableEq, Repr

/-- `CommonAttributes(shape)`. -/
def commonAttrs {γ : Type} (s : FShape γ) : CommonAttrs :=
  ⟨s.name, s.colour, s.opacity, s.id⟩

/-- `ShapeFilter` state.  The `rtree` field models the Python instance
attribute `__excluded_shape_rtree`: `none` means the attribute has been
`del`eted (reading it raises `AttributeError`), `some none` is the attribute
holding `None`, and `some (some t)` is the built `STRtree` — modelled as the
snapshot of geometries it indexes. -/
structure SFState (γ : Type) where
  geoms : List (γ × CommonAttrs)
  rtree : Option (Option (List γ))
  warnCreate : Bool := false
  warnFilter : Bool := false
  deriving DecidableEq, Repr

namespace SFState

/-- `ShapeFilter.__init__` (`shapefilter.py`, lines 62-67). -/
def init (γ : Type) : SFState γ := ⟨[], some none, false, false⟩

/-- `ShapeFilter.add_shape` (`shapefilter.py`, lines 69-78): polygonal
geometries are recorded while the index is unbuilt; otherwise a one-time
warning.  Reading a deleted `rtree` attribute raises. -/
def add_shape {γ : Type} (ops : FilterOps γ) (st : SFState γ) (s : FShape γ) :
    Except PyError (SFState γ) :=
  match st.rtree with
  | none => Except.error PyError.attributeError
  | some tree =>
    match s.geometry, tree with
    | some g, none =>
        if ops.isPolygonal g then
          Except.ok { st with geoms := st.geoms ++ [(g, commonAttrs s)] }
        else Except.ok st
    | _, _ =>
        if st.warnCreate then Except.ok st
        else Except.ok { st with warnCreate := true }

/-- `ShapeFilter.create_filter` (`shapefilter.py`, lines 80-83): build the
index over the recorded geometries when it does not exist yet. -/
def create_filter {γ : Type} (st : SFState γ) : Except PyError (SFState γ) :=
  match st.rtree with
  | none => Except.error PyError.attributeError
  | some none => Except.ok { st with rtree := some (some (st.geoms.map (·.1))) }
  | some (some _) => Except.ok st

/-- `ShapeFilter.reset_filter` (`shapefilter.py`, lines 85-89): when the index
exists the source executes `del self.__excluded_shape_rtree` — removing the
instance attribute altogether — and then calls `create_filter`, whose first
read of the now-missing attribute raises `AttributeError`. -/
def reset_filter {γ : Type} (st : SFState γ) : Except PyError (SFState γ) :=
  match st.rtree with
  | none => Except.error PyError.attributeError
  | some none => create_filter st
  | some (some _) => create_filter { st with rtree := none }

/-- `ShapeFilter.__shape_excluded` (`shapefilter.py`, lines 107-125): scan the
candidate geometries in order; a candidate that
intersects the query geometry matches either by mutual area overlap at the
given ratio (when no attributes are supplied) or by comparison-tuple
equality. -/
def shape_excluded {γ : Type} (ops : FilterOps γ) (st : SFState γ) (g : γ)
    (overlap : ℚ) (attributes : Option CommonAttrs) : Option CommonAttrs :=
  st.geoms.findSome? (fun ga =>
    if ops.intersects ga.1 g then
      match attributes with
      | none =>
          if overlap * ops.area g ≤ ops.interArea ga.1 g ∧
             overlap * ops.area ga.1 ≤ ops.interArea ga.1 g then
            some ga.2
          else none
      | some a => if attrsEq a ga.2 then some ga.2 else none
    else none)

/-- `ShapeFilter.filter` (`shapefilter.py`, lines 91-105): after finalization,
a polygonal shape is tested with the default (0.98) overlap, the 0.80
overlap, and the attribute comparison, in that order; a match marks the
shape excluded and annotates it with the matching reference's attributes. -/
def filter {γ : Type} (ops : FilterOps γ) (st : SFState γ) (s : FShape γ) :
    Except PyError (Bool × FShape γ × SFState γ) :=
  match st.rtree with
  | none => Except.error PyError.attributeError
  | some (some _) =>
    match s.geometry with
    | some g =>
        if ops.isPolygonal g then
          match (shape_excluded ops st g (98/100) none).orElse (fun _ =>
                (shape_excluded ops st g (80/100) none).orElse (fun _ =>
                 shape_excluded ops st g (98/100) (some (commonAttrs s)))) with
          | some attribs =>
              Except.ok (true, { s with exclude := true, annotated := some attribs }, st)
          | none => Except.ok (false, s, st)
        else Except.ok (false, s, st)
    | none => Except.ok (false, s, st)
  | some none =>
      if st.warnFilter then Except.ok (false, s, st)
      else Except.ok (false, s, { st with warnFilter := true })

end SFState

/-- Mutual area overlap at ratio `overlap`, as tested by
`ShapeFilter.__shape_excluded` when no attributes are supplied. -/
def overlapMatch {γ : Type} (ops : FilterOps γ) (gref g : γ) (overlap : ℚ) : Prop :=
  overlap * ops.area g ≤ ops.interArea gref g ∧
  overlap * ops.area gref ≤ ops.interArea gref g

end Flatmap

namespace Flatmap

/-! ### Theorems about ConnectionGraph (claim C3) -/

theorem sameEdge_trans {p q u v a b : String} (h1 : sameEdge p q u v = true)
    (h2 : sameEdge p q a b = true) : sameEdge u v a b = true := by
  simp only [sameEdge, Bool.or_eq_true, Bool.and_eq_true, decide_eq_true_eq] at *
  rcases h1 with ⟨h, h'⟩ | ⟨h, h'⟩ <;> rcases h2 with ⟨g, g'⟩ | ⟨g, g'⟩ <;>
    subst h <;> subst h' <;> simp_all

theorem hasEdge_addEdge (g : ConnectionGraphM) (u v cid : String)
    (comps : List String) (a b : String) :
    (g.addEdge u v cid comps).hasEdge a b = true ↔
      (sameEdge u v a b = true ∨ g.hasEdge a b = true) := by
  simp only [ConnectionGraphM.addEdge, ConnectionGraphM.hasEdge, List.any_cons,
    Bool.or_eq_true, List.any_eq_true, List.mem_filter, Bool.not_eq_eq_eq_not,
    Bool.not_true] at *
  constructor
  · rintro (h | ⟨e, ⟨he, _⟩, hm⟩)
    · exact Or.inl h
    · exact Or.inr ⟨e, he, hm⟩
  · rintro (h | ⟨e, he, hm⟩)
    · exact Or.inl h
    · by_cases hrem : sameEdge e.n0 e.n1 u v = true
      · exact Or.inl (sameEdge_trans hrem hm)
      · exact Or.inr ⟨e, ⟨he, by simp [hrem]⟩, hm⟩

/-- Claim C3, counterexample input: a connection whose two endpoints resolved
to the same connector identifier. -/
def selfLoopConnection : ConnectionM :=
  ⟨"c1", ["x", "x"], [], "", [], false⟩

/-- Claim C3 is false as stated: `ConnectionGraph.add_connection` tests only
`len(connection.connector_ids) == 2` and never that the two identifiers
differ, so a connection whose two endpoints resolve to the same connector
becomes a (self-loop) graph edge. -/
theorem connection_graph_self_loop_edge :
    (ConnectionGraphM.add_connection ConnectionGraphM.empty selfLoopConnection
      []).hasEdge "x" "x" = true := by decide

/-- Claim C3 (amended): an edge is added to the per-domain connection graph
exactly when the connection has exactly two resolved endpoint connector
identifiers; the two identifiers are not required to differ, and identical
endpoints produce a self-loop edge. -/
theorem connection_graph_edge_iff (g : ConnectionGraphM) (c : ConnectionM)
    (comps : List String) (a b : String) :
    (ConnectionGraphM.add_connection g c comps).hasEdge a b = true ↔
      (g.hasEdge a b = true ∨
        (c.connectorIds.length = 2 ∧
          sameEdge (c.connectorIds.getD 0 "") (c.connectorIds.getD 1 "") a b = true)) := by
  unfold ConnectionGraphM.add_connection
  by_cases hlen : c.connectorIds.length = 2
  · simp only [hlen, if_true, hasEdge_addEdge]
    tauto
  · simp [hlen]

/-! ### Theorems about the splice actions (claim C5) -/

/-- Claim C5, failing input: an accepted splice whose shared connector has
kind `CONNECTOR_THROUGH`. -/
def throughSpliceCtx : SpliceCtx :=
  { graph := ConnectionGraphM.empty.addEdge "t" "p" "c0" [],
    connectorId := "t",
    connectorKind := FC_KIND.CONNECTOR_THROUGH,
    connectorExclude := false,
    neighbour := "p",
    joinNodes := ["t"],
    joinConnection := ⟨"c0", ["t", "p"], [], "sympathetic-pre", [(0, 0), (1, 1)], false⟩,
    connection := ⟨"c1", ["q", "t"], [], "sympathetic-pre", [(1, 1), (2, 2)], false⟩,
    coords0 := [(0, 0), (1, 1)],
    coords1 := [(1, 1), (2, 2)] }

/-- Claim C5: evaluating the accepted-splice code at a THROUGH connector.
The source line `connection.intermediate_connectors.append[connector.id]`
subscripts the bound `append` method instead of calling it, so Python raises
`TypeError` and processing does not continue; the claimed actions after that
line never happen for a THROUGH connector. -/
theorem splice_through_raises_type_error :
    spliceAccept throughSpliceCtx = Except.error PyError.typeError := by rfl

/-- The same accepted splice at a JOINER connector. -/
def joinerSpliceCtx : SpliceCtx :=
  { throughSpliceCtx with connectorKind := FC_KIND.CONNECTOR_JOINER }

/-- For a JOINER connector the accepted-splice block does complete, and all
the actions the specification lists happen: the old graph edge is removed,
the joiner connector is excluded, the old connection is excluded, the
surviving geometry is the concatenated line, and the surviving connection's
far endpoint becomes the old connection's other endpoint. -/
theorem spliceAccept_joiner_behaviour :
    spliceAccept joinerSpliceCtx = Except.ok
      { graph := ⟨["t", "p"], []⟩,
        connectorExclude := true,
        joinNodes := [],
        joinConnection := ⟨"c0", [], [], "sympathetic-pre", [(0, 0), (1, 1)], true⟩,
        connection :=
          ⟨"c1", ["q", "p"], [], "sympathetic-pre",
            [(0, 0), (1, 1), (1, 1), (2, 2)], false⟩ } := by rfl

/-! ### Theorems about ShapeFilter create/reset (claim C8) -/

/-- Claim C8: evaluating `create_filter()` followed by `reset_filter()` on a
fresh `ShapeFilter`.  `reset_filter` executes `del self.__excluded_shape_rtree`
and then calls `create_filter`, which reads the deleted attribute, so the
call raises `AttributeError` instead of idempotently rebuilding the index. -/
theorem shapefilter_reset_after_create_raises :
    (SFState.create_filter (SFState.init ℕ)).bind SFState.reset_filter =
      Except.error PyError.attributeError := by rfl

/-! ### Theorems about ShapeFilter.filter (claim C7) -/

theorem findSome?_cons_eq {α β : Type} (f : α → Option β) (a : α) (as : List α) :
    (a :: as).findSome? f =
      match f a with | some b => some b | none => as.findSome? f := rfl

theorem findSome?_eq_some_spec {α β : Type} (f : α → Option β) :
    ∀ (l : List α) (b : β), l.findSome? f = some b → ∃ x ∈ l, f x = some b := by
  intro l
  induction l with
  | nil => intro b h; simp [List.findSome?] at h
  | cons a as ih =>
      intro b h
      cases hfa : f a with
      | some c =>
          simp only [findSome?_cons_eq, hfa] at h
          exact ⟨a, List.mem_cons_self a as, by rw [hfa]; exact h⟩
      | none =>
          simp only [findSome?_cons_eq, hfa] at h
          obtain ⟨x, hx, hfx⟩ := ih b h
          exact ⟨x, List.mem_cons_of_mem a hx, hfx⟩

theorem findSome?_eq_none_spec {α β : Type} (f : α → Option β) :
    ∀ (l : List α), l.findSome? f = none → ∀ x ∈ l, f x = none := by
  intro l
  induction l with
  | nil => intro _ x hx; simp at hx
  | cons a as ih =>
      intro h x hx
      cases hfa : f a with
      | some c => simp only [findSome?_cons_eq, hfa] at h; cases h
      | none =>
          simp only [findSome?_cons_eq, hfa] at h
          rcases List.mem_cons.mp hx with rfl | hx'
          · exact hfa
          · exact ih h x hx'

theorem findSome?_isSome_of_mem {α β : Type} (f : α → Option β) (l : List α)
    (x : α) (hx : x ∈ l) (b : β) (hfx : f x = some b) :
    (l.findSome? f).isSome = true := by
  cases h : l.findSome? f with
  | some c => rfl
  | none => exact absurd (findSome?_eq_none_spec f l h x hx) (by rw [hfx]; simp)

/-- What a candidate of `__shape_excluded` matches on when no attributes are
supplied: intersection plus mutual overlap at the given ratio. -/
theorem shape_excluded_overlap_spec {γ : Type} (ops : FilterOps γ) (st : SFState γ)
    (g : γ) (ov : ℚ) (a : CommonAttrs)
    (h : SFState.shape_excluded ops st g ov none = some a) :
    ∃ ga ∈ st.geoms, a = ga.2 ∧ ops.intersects ga.1 g = true ∧
      overlapMatch ops ga.1 g ov := by
  obtain ⟨ga, hmem, hga⟩ := findSome?_eq_some_spec _ _ _ h
  refine ⟨ga, hmem, ?_⟩
  by_cases hint : ops.intersects ga.1 g = true
  · rw [if_pos hint] at hga
    dsimp only at hga
    by_cases hov : ov * ops.area g ≤ ops.interArea ga.1 g ∧
        ov * ops.area ga.1 ≤ ops.interArea ga.1 g
    · rw [if_pos hov] at hga
      injection hga with e
      exact ⟨e.symm, hint, hov⟩
    · rw [if_neg hov] at hga
      cases hga
  · rw [if_neg hint] at hga
    cases hga

/-- What a candidate of `__shape_excluded` matches on when attributes are
supplied: intersection plus comparison-tuple equality. -/
theorem shape_excluded_attrs_spec {γ : Type} (ops : FilterOps γ) (st : SFState γ)
    (g : γ) (ov : ℚ) (at0 : CommonAttrs) (a : CommonAttrs)
    (h : SFState.shape_excluded ops st g ov (some at0) = some a) :
    ∃ ga ∈ st.geoms, a = ga.2 ∧ ops.intersects ga.1 g = true ∧
      attrsEq at0 ga.2 = true := by
  obtain ⟨ga, hmem, hga⟩ := findSome?_eq_some_spec _ _ _ h
  refine ⟨ga, hmem, ?_⟩
  by_cases hint : ops.intersects ga.1 g = true
  · rw [if_pos hint] at hga
    dsimp only at hga
    by_cases hat : attrsEq at0 ga.2 = true
    · rw [if_pos hat] at hga
      injection hga with e
      exact ⟨e.symm, hint, hat⟩
    · rw [if_neg hat] at hga
      cases hga
  · rw [if_neg hint] at hga
    cases hga

theorem shape_excluded_overlap_isSome {γ : Type} (ops : FilterOps γ)
    (st : SFState γ) (g : γ) (ov : ℚ) (ga : γ × CommonAttrs)
    (hmem : ga ∈ st.geoms) (hint : ops.intersects ga.1 g = true)
    (hcond : overlapMatch ops ga.1 g ov) :
    (SFState.shape_excluded ops st g ov none).isSome = true := by
  apply findSome?_isSome_of_mem _ _ ga hmem ga.2
  rw [if_pos hint]
  dsimp only
  exact if_pos hcond

theorem shape_excluded_attrs_isSome {γ : Type} (ops : FilterOps γ)
    (st : SFState γ) (g : γ) (ov : ℚ) (at0 : CommonAttrs) (ga : γ × CommonAttrs)
    (hmem : ga ∈ st.geoms) (hint : ops.intersects ga.1 g = true)
    (hcond : attrsEq at0 ga.2 = true) :
    (SFState.shape_excluded ops st g ov (some at0)).isSome = true := by
  apply findSome?_isSome_of_mem _ _ ga hmem ga.2
  rw [if_pos hint]
  dsimp only
  rw [if_pos hcond]

/-- Claim C7: after finalization, `ShapeFilter.filter` on a polygonal shape
returns true exactly when some recorded geometry intersects the shape and
either (a) achieves the default (98 percent) mutual overlap, or (b) achieves
the 80 percent mutual overlap, or (c) matches the (name, colour, opacity)
comparison tuple; on true the shape is marked excluded and annotated with a
matching reference's attributes, and on false the shape is unchanged. -/
theorem shapefilter_filter_spec {γ : Type} (ops : FilterOps γ) (st : SFState γ)
    (s : FShape γ) (tree : List γ) (hfin : st.rtree = some (some tree)) (g : γ)
    (hg : s.geometry = some g) (hpoly : ops.isPolygonal g = true) :
    ∃ b s', SFState.filter ops st s = Except.ok (b, s', st) ∧
      ((b = true) ↔ ∃ ga ∈ st.geoms, ops.intersects ga.1 g = true ∧
         (overlapMatch ops ga.1 g (98/100) ∨ overlapMatch ops ga.1 g (80/100) ∨
          attrsEq (commonAttrs s) ga.2 = true)) ∧
      (b = true → s'.exclude = true ∧
        ∃ ga ∈ st.geoms, s'.annotated = some ga.2 ∧ ops.intersects ga.1 g = true ∧
          (overlapMatch ops ga.1 g (98/100) ∨ overlapMatch ops ga.1 g (80/100) ∨
           attrsEq (commonAttrs s) ga.2 = true)) ∧
      (b = false → s' = s) := by
  have hred : SFState.filter ops st s =
      match (SFState.shape_excluded ops st g (98/100) none).orElse (fun _ =>
            (SFState.shape_excluded ops st g (80/100) none).orElse (fun _ =>
             SFState.shape_excluded ops st g (98/100) (some (commonAttrs s)))) with
      | some attribs =>
          Except.ok (true, { s with exclude := true, annotated := some attribs }, st)
      | none => Except.ok (false, s, st) := by
    unfold SFState.filter
    rw [hfin, hg]
    exact if_pos hpoly
  rw [hred]
  cases hchain : (SFState.shape_excluded ops st g (98/100) none).orElse (fun _ =>
      (SFState.shape_excluded ops st g (80/100) none).orElse (fun _ =>
       SFState.shape_excluded ops st g (98/100) (some (commonAttrs s)))) with
  | some attribs =>
      refine ⟨true, _, rfl, ?_, ?_, by simp⟩
      · -- the chain returned a match, so a recorded geometry matched
        simp only [true_iff]
        rcases (Option.orElse_eq_some' _ _ _).mp hchain with h98 | ⟨_, hrest⟩
        · obtain ⟨ga, hmem, _, hint, hov⟩ := shape_excluded_overlap_spec _ _ _ _ _ h98
          exact ⟨ga, hmem, hint, Or.inl hov⟩
        · rcases (Option.orElse_eq_some' _ _ _).mp hrest with h80 | ⟨_, hattr⟩
          · obtain ⟨ga, hmem, _, hint, hov⟩ := shape_excluded_overlap_spec _ _ _ _ _ h80
            exact ⟨ga, hmem, hint, Or.inr (Or.inl hov)⟩
          · obtain ⟨ga, hmem, _, hint, hat⟩ := shape_excluded_attrs_spec _ _ _ _ _ _ hattr
            exact ⟨ga, hmem, hint, Or.inr (Or.inr hat)⟩
      · intro _
        refine ⟨rfl, ?_⟩
        rcases (Option.orElse_eq_some' _ _ _).mp hchain with h98 | ⟨_, hrest⟩
        · obtain ⟨ga, hmem, ha, hint, hov⟩ := shape_excluded_overlap_spec _ _ _ _ _ h98
          exact ⟨ga, hmem, by simp [ha], hint, Or.inl hov⟩
        · rcases (Option.orElse_eq_some' _ _ _).mp hrest with h80 | ⟨_, hattr⟩
          · obtain ⟨ga, hmem, ha, hint, hov⟩ := shape_excluded_overlap_spec _ _ _ _ _ h80
            exact ⟨ga, hmem, by simp [ha], hint, Or.inr (Or.inl hov)⟩
          · obtain ⟨ga, hmem, ha, hint, hat⟩ := shape_excluded_attrs_spec _ _ _ _ _ _ hattr
            exact ⟨ga, hmem, by simp [ha], hint, Or.inr (Or.inr hat)⟩
  | none =>
      refine ⟨false, s, rfl, ?_, fun hb => absurd hb (by simp), fun _ => rfl⟩
      simp only [Bool.false_eq_true, false_iff]
      rintro ⟨ga, hmem, hint, hov98 | hov80 | hat⟩
      · have := shape_excluded_overlap_isSome ops st g (98/100) ga hmem hint hov98
        rcases Option.isSome_iff_exists.mp this with ⟨a, ha⟩
        simp [Option.orElse, ha] at hchain
      · have := shape_excluded_overlap_isSome ops st g (80/100) ga hmem hint hov80
        rcases Option.isSome_iff_exists.mp this with ⟨a, ha⟩
        cases h98 : SFState.shape_excluded ops st g (98/100) none with
        | some c => simp [Option.orElse, h98] at hchain
        | none => simp [Option.orElse, h98, ha] at hchain
      · have := shape_excluded_attrs_isSome ops st g (98/100) (commonAttrs s)
          ga hmem hint hat
        rcases Option.isSome_iff_exists.mp this with ⟨a, ha⟩
        cases h98 : SFState.shape_excluded ops st g (98/100) none with
        | some c => simp [Option.orElse, h98] at hchain
        | none =>
            cases h80 : SFState.shape_excluded ops st g (80/100) none with
            | some c => simp [Option.orElse, h98, h80] at hchain
            | none => simp [Option.orElse, h98, h80, ha] at hchain

/-! ### Direction continuity (`connections.py`, lines 47-58; claims C4, C10)

Coordinates are modelled as real pairs; `math.hypot` is the Euclidean
magnitude. -/

/-- `math.hypot`. -/
noncomputable def hypot (x y : ℝ) : ℝ := Real.sqrt (x ^ 2 + y ^ 2)

open Classical in
/-- `direction(coords)` (`connections.py`, lines 47-51) applied to the two
successive coordinates it reads: the unit tangent from `c0` to `c1`, or
`None` when the two coordinates coincide (zero magnitude — the guard avoids
dividing by zero). -/
noncomputable def direction (c0 c1 : ℝ × ℝ) : Option (ℝ × ℝ) :=
  let dx := c1.1 - c0.1
  let dy := c1.2 - c0.2
  let magnitude := hypot dx dy
  if 0 < magnitude then some (dx / magnitude, dy / magnitude) else none

/-- `similar_direction(dirn_0, dirn_1)` (`connections.py`, lines 53-58): both
directions must be defined and the magnitude of their vector sum must exceed
1.93 (the source comments that 1.93 approximates `sqrt(2 + sqrt(3))`,
i.e. tangents within about 30 degrees). -/
def similar_direction : Option (ℝ × ℝ) → Option (ℝ × ℝ) → Prop
  | some dirn0, some dirn1 =>
      hypot (dirn0.1 + dirn1.1) (dirn0.2 + dirn1.2) > 1.93
  | _, _ => False

/-- The description tests guarding a splice in
`ConnectionClassifier.add_connection` (`connections.py`, lines 303-330): the
primary branches (`description.split('-')[0]`) must not differ, the two
descriptions must be fully equal, and the oriented tangents must pass
`similar_direction`. -/
def spliceGate (joinDesc connDesc : String) (d0 d1 : Option (ℝ × ℝ)) : Prop :=
  if (joinDesc.splitOn "-").headD "" ≠ (connDesc.splitOn "-").headD "" then False
  else if joinDesc = connDesc then similar_direction d0 d1
  else False

/-- Claim C4: for two same-description segments with defined unit tangents,
the splice is accepted exactly when the vector sum of the tangents has
magnitude greater than 1.93; equivalently, exactly when the inner product of
the unit tangents exceeds 0.86245 = (1.93 squared minus 2) / 2, the cosine of
about 30.4 degrees — so tangents diverging by more than that angle are never
spliced. -/
theorem splice_direction_gate (jd cd : String) (hdesc : jd = cd)
    (d0 d1 : ℝ × ℝ) (hu0 : d0.1 ^ 2 + d0.2 ^ 2 = 1) (hu1 : d1.1 ^ 2 + d1.2 ^ 2 = 1) :
    (spliceGate jd cd (some d0) (some d1) ↔
       hypot (d0.1 + d1.1) (d0.2 + d1.2) > 1.93) ∧
    (spliceGate jd cd (some d0) (some d1) ↔
       d0.1 * d1.1 + d0.2 * d1.2 > 0.86245) ∧
    (d0.1 * d1.1 + d0.2 * d1.2 ≤ 0.86245 →
       ¬ spliceGate jd cd (some d0) (some d1)) := by
  subst hdesc
  have hgate : spliceGate jd jd (some d0) (some d1) ↔
      1.93 < hypot (d0.1 + d1.1) (d0.2 + d1.2) := by
    unfold spliceGate
    rw [if_neg (show ¬((jd.splitOn "-").headD "" ≠ (jd.splitOn "-").headD "")
          from fun h => h rfl), if_pos rfl]
    exact Iff.rfl
  have hsq : (d0.1 + d1.1) ^ 2 + (d0.2 + d1.2) ^ 2 =
      2 + 2 * (d0.1 * d1.1 + d0.2 * d1.2) := by
    have : (d0.1 + d1.1) ^ 2 + (d0.2 + d1.2) ^ 2 =
        (d0.1 ^ 2 + d0.2 ^ 2) + (d1.1 ^ 2 + d1.2 ^ 2) +
          2 * (d0.1 * d1.1 + d0.2 * d1.2) := by ring
    rw [this, hu0, hu1]; ring
  have hiff : 1.93 < hypot (d0.1 + d1.1) (d0.2 + d1.2) ↔
      d0.1 * d1.1 + d0.2 * d1.2 > 0.86245 := by
    unfold hypot
    rw [Real.lt_sqrt (by norm_num : (0:ℝ) ≤ 1.93), hsq]
    constructor <;> intro h <;> nlinarith
  refine ⟨hgate, hgate.trans hiff, fun hle hg => ?_⟩
  exact absurd ((hgate.trans hiff).mp hg) (not_lt.mpr hle)

/-- Witness for claim C4: the gate evaluated at two identical unit tangents
(1, 0) with equal descriptions. -/
theorem splice_direction_gate_witness :
    (spliceGate "sympathetic-pre" "sympathetic-pre"
        (some ((1:ℝ), 0)) (some (1, 0)) ↔
       hypot ((1:ℝ) + 1) ((0:ℝ) + 0) > 1.93) ∧
    (spliceGate "sympathetic-pre" "sympathetic-pre"
        (some ((1:ℝ), 0)) (some (1, 0)) ↔
       (1:ℝ) * 1 + 0 * 0 > 0.86245) ∧
    ((1:ℝ) * 1 + 0 * 0 ≤ 0.86245 →
       ¬ spliceGate "sympathetic-pre" "sympathetic-pre"
          (some ((1:ℝ), 0)) (some (1, 0))) :=
  splice_direction_gate "sympathetic-pre" "sympathetic-pre" rfl
    (1, 0) (1, 0) (by norm_num) (by norm_num)

/-- Claim C10: when a segment's two coordinates at the shared end coincide,
`direction` returns no direction instead of dividing by zero, the
direction-continuity test is false whichever side the degenerate tangent is
on, and the splice gate never accepts. -/
theorem zero_length_segment_no_splice (p : ℝ × ℝ) (d : Option (ℝ × ℝ))
    (jd cd : String) :
    direction p p = none ∧
    ¬ similar_direction (direction p p) d ∧
    ¬ similar_direction d (direction p p) ∧
    ¬ spliceGate jd cd (direction p p) d := by
  have h0 : hypot (p.1 - p.1) (p.2 - p.2) = 0 := by
    unfold hypot
    norm_num [sub_self]
  have hdir : direction p p = none := by
    unfold direction
    rw [if_neg (by rw [h0]; exact lt_irrefl 0)]
  refine ⟨hdir, ?_, ?_, ?_⟩
  · rw [hdir]; cases d <;> exact fun h => h
  · rw [hdir]; cases d <;> exact fun h => h
  · intro h
    unfold spliceGate at h
    split at h
    · exact h
    · split at h
      · rw [hdir] at h; cases d <;> exact h
      · exact h

/-! ### ConnectionClassifier endpoint resolution
(`connections.py`, lines 129-254; claim C9)

Connector geometries are abstract (`γc`), with the point-to-geometry
distance and the point buffering used for synthesized free ends supplied as
external geometric capabilities. -/

/-- `MAX_CONNECTION_GAP` (`components.py`, line 36). -/
def MAX_CONNECTION_GAP : ℚ := 4000

/-- A registered connector (`FCShape` with `cd_class == CONNECTOR`):
identifier, domain class, domain kind and geometry. -/
structure ConnectorM (γc : Type) where
  id : String
  fcClass : FC_CLASS
  fcKind : FC_KIND
  geometry : γc
  deriving DecidableEq, Repr

/-- External geometric capabilities for endpoint resolution. -/
structure CCEnv (γc : Type) where
  dist : (ℚ × ℚ) → γc → ℚ
  bufferPt : (ℚ × ℚ) → ℚ → γc

/-- The connector-related state of a `ConnectionClassifier`:
`__connectors` (id-keyed, latest binding first), `__connector_geometries`
paired with `__connector_ids_by_geometry`, and the per-domain graph node
lists. -/
structure CCState (γc : Type) where
  connectors : List (ConnectorM γc)
  connectorGeoms : List (γc × String)
  neuralNodes : List String
  vascularNodes : List String
  deriving DecidableEq, Repr

/-- Dictionary lookup in `self.__connectors`. -/
def lookupConnector {γc : Type} (st : CCState γc) (cid : String) :
    Option (ConnectorM γc) :=
  st.connectors.find? (fun c => c.id == cid)

/-- `ConnectionClassifier.__add_connector_node` (`connections.py`,
lines 171-177): record the connector and add a node to the graph of its
domain class. -/
def addConnectorNode {γc : Type} (st : CCState γc) (c : ConnectorM γc) :
    CCState γc :=
  { st with
    connectors := c :: st.connectors,
    neuralNodes :=
      if c.fcClass = FC_CLASS.NEURAL then st.neuralNodes ++ [c.id]
      else st.neuralNodes,
    vascularNodes :=
      if c.fcClass = FC_CLASS.VASCULAR then st.vascularNodes ++ [c.id]
      else st.vascularNodes }

/-- One step of the nearest-geometry scan (`STRtree.nearest`): keep the
candidate at strictly smaller distance, the earlier one on ties. -/
def nearestStep {γc : Type} (env : CCEnv γc) (pt : ℚ × ℚ)
    (acc : Option (γc × String)) (gp : γc × String) : Option (γc × String) :=
  match acc with
  | none => some gp
  | some best => if env.dist pt gp.1 < env.dist pt best.1 then some gp else some best

/-- The nearest indexed connector geometry to a point. -/
def nearestGeom {γc : Type} (env : CCEnv γc) (gs : List (γc × String))
    (pt : ℚ × ℚ) : Option (γc × String) :=
  gs.foldl (nearestStep env pt) none

/-- `ConnectionClassifier.__closest_connector_id` (`connections.py`,
lines 192-198): the nearest connector's id, provided its distance to the
point is below `MAX_CONNECTION_GAP`; `None` when the index is empty
(no connectors registered) or the nearest connector is out of tolerance. -/
def closestConnectorId {γc : Type} (env : CCEnv γc) (gs : List (γc × String))
    (pt : ℚ × ℚ) : Option String :=
  match nearestGeom env gs pt with
  | none => none
  | some gc => if env.dist pt gc.1 < MAX_CONNECTION_GAP then some gc.2 else none

/-- The identifier given to a synthesized free-end connector:
`f'{connection.id}/{coord_index+1}'` with `coord_index` 0 or -1. -/
def freeEndId (connId : String) (cidx : ℤ) : String :=
  connId ++ "/" ++ (if cidx = 0 then "1" else "0")

/-- One endpoint of the resolution loop of
`ConnectionClassifier.add_connection` (`connections.py`, lines 220-229):
resolve to the closest connector within tolerance, otherwise synthesize a
connector at the buffered end point. -/
def resolveStep {γc : Type} (env : CCEnv γc) (st : CCState γc) (connId : String)
    (acc : List String × List (ConnectorM γc) × List (String × ℤ))
    (pc : (ℚ × ℚ) × ℤ) :
    List String × List (ConnectorM γc) × List (String × ℤ) :=
  match closestConnectorId env st.connectorGeoms pc.1 with
  | some cid => (acc.1 ++ [cid], acc.2.1, acc.2.2 ++ [(cid, pc.2)])
  | none =>
      let fid := freeEndId connId pc.2
      (acc.1,
       acc.2.1 ++ [{ id := fid, fcClass := FC_CLASS.UNKNOWN,
                     fcKind := FC_KIND.UNKNOWN,
                     geometry := env.bufferPt pc.1 MAX_CONNECTION_GAP }],
       acc.2.2 ++ [(fid, pc.2)])

/-- The outcome of endpoint resolution: the final `connected_end_ids`, the
`connection_end_index` entries, the synthesized free-end ids and the updated
classifier state. -/
structure ResolveOut (γc : Type) where
  endIds : List String
  endIndex : List (String × ℤ)
  freeIds : List String
  state : CCState γc
  deriving DecidableEq, Repr

/-- The endpoint-resolution part of `ConnectionClassifier.add_connection`
(`connections.py`, lines 216-254): resolve both geometric endpoints
(`coords[0]` and `coords[-1]`); when exactly one end is free its synthesized
connector inherits the domain class of the connector resolved at the other
end (`free_end_connectors[0].fc_class = ...`, line 250; the source indexes
`__connectors` directly and would raise `KeyError` for an unregistered id —
that state is unreachable because `add_connector` registers every indexed
geometry's id); every free-end connector gets kind `CONNECTOR_FREE_END`, is
registered as a graph node, and its id is appended to the resolved ids. -/
def resolveEnds {γc : Type} (env : CCEnv γc) (st : CCState γc)
    (conn : ConnectionM) : ResolveOut γc :=
  let pts : List ((ℚ × ℚ) × ℤ) :=
    [(conn.geometry.headD (0, 0), 0), (conn.geometry.getLastD (0, 0), -1)]
  let r := pts.foldl (resolveStep env st conn.id) ([], [], [])
  let connected := r.1
  let frees := r.2.1
  let frees :=
    if frees.length = 1 then
      match connected.head? with
      | some rid =>
          match lookupConnector st rid with
          | some rc => frees.map (fun f => { f with fcClass := rc.fcClass })
          | none => frees
      | none => frees
    else frees
  let frees := frees.map (fun f => { f with fcKind := FC_KIND.CONNECTOR_FREE_END })
  { endIds := connected ++ frees.map (·.id),
    endIndex := r.2.2,
    freeIds := frees.map (·.id),
    state := frees.foldl addConnectorNode st }

theorem nearestGeom_aux {γc : Type} (env : CCEnv γc) (pt : ℚ × ℚ) :
    ∀ (gs : List (γc × String)) (acc : Option (γc × String)),
      match gs.foldl (nearestStep env pt) acc with
      | none => gs = [] ∧ acc = none
      | some gp =>
          (gp ∈ gs ∨ acc = some gp) ∧
          (∀ gq ∈ gs, env.dist pt gp.1 ≤ env.dist pt gq.1) ∧
          (∀ aq, acc = some aq → env.dist pt gp.1 ≤ env.dist pt aq.1) := by
  intro gs
  induction gs with
  | nil =>
      intro acc
      cases acc with
      | none => exact ⟨rfl, rfl⟩
      | some a =>
          refine ⟨Or.inr rfl, by simp, fun aq haq => ?_⟩
          injection haq with haq
          rw [haq]
  | cons gp0 gs ih =>
      intro acc
      rw [List.foldl_cons]
      have hstep : ∀ b, nearestStep env pt acc gp0 = some b →
          (b = gp0 ∨ acc = some b) ∧ env.dist pt b.1 ≤ env.dist pt gp0.1 ∧
          (∀ aq, acc = some aq → env.dist pt b.1 ≤ env.dist pt aq.1) := by
        intro b hb
        cases acc with
        | none =>
            simp only [nearestStep] at hb
            injection hb with hb
            subst hb
            exact ⟨Or.inl rfl, le_refl _, fun aq haq => by cases haq⟩
        | some best =>
            simp only [nearestStep] at hb
            by_cases hlt : env.dist pt gp0.1 < env.dist pt best.1
            · rw [if_pos hlt] at hb
              injection hb with hb
              subst hb
              exact ⟨Or.inl rfl, le_refl _, fun aq haq => by
                injection haq with haq; rw [← haq]; exact le_of_lt hlt⟩
            · rw [if_neg hlt] at hb
              injection hb with hb
              subst hb
              exact ⟨Or.inr rfl, not_lt.mp hlt, fun aq haq => by
                injection haq with haq; rw [haq]⟩
      have hacc' : ∃ b, nearestStep env pt acc gp0 = some b := by
        cases acc with
        | none => exact ⟨gp0, rfl⟩
        | some best =>
            simp only [nearestStep]
            by_cases hlt : env.dist pt gp0.1 < env.dist pt best.1
            · exact ⟨gp0, if_pos hlt⟩
            · exact ⟨best, if_neg hlt⟩
      obtain ⟨b, hb⟩ := hacc'
      rw [hb]
      have hbspec := hstep b hb
      have := ih (some b)
      cases hres : gs.foldl (nearestStep env pt) (some b) with
      | none =>
          rw [hres] at this
          exact absurd this.2 (by simp)
      | some gp =>
          rw [hres] at this
          obtain ⟨hmem, hmin, haccmin⟩ := this
          have hgpb : env.dist pt gp.1 ≤ env.dist pt b.1 := haccmin b rfl
          refine ⟨?_, ?_, ?_⟩
          · rcases hmem with h | h
            · exact Or.inl (List.mem_cons_of_mem _ h)
            · injection h with h
              subst h
              rcases hbspec.1 with h' | h'
              · exact Or.inl (by rw [h']; exact List.mem_cons_self _ _)
              · exact Or.inr h'
          · intro gq hgq
            rcases List.mem_cons.mp hgq with rfl | hgq'
            · exact le_trans hgpb hbspec.2.1
            · exact hmin gq hgq'
          · intro aq haq
            exact le_trans hgpb (hbspec.2.2 aq haq)

/-- The nearest-within-tolerance characterization of
`__closest_connector_id`. -/
theorem closestConnectorId_spec {γc : Type} (env : CCEnv γc)
    (gs : List (γc × String)) (pt : ℚ × ℚ) :
    (∀ cid, closestConnectorId env gs pt = some cid →
       ∃ gp ∈ gs, gp.2 = cid ∧ env.dist pt gp.1 < MAX_CONNECTION_GAP ∧
         ∀ gq ∈ gs, env.dist pt gp.1 ≤ env.dist pt gq.1) ∧
    (closestConnectorId env gs pt = none →
       ∀ gp ∈ gs, MAX_CONNECTION_GAP ≤ env.dist pt gp.1) := by
  have haux := nearestGeom_aux env pt gs none
  constructor
  · intro cid hcid
    cases hnear : nearestGeom env gs pt with
    | none => simp only [closestConnectorId, hnear] at hcid; cases hcid
    | some gc =>
        simp only [closestConnectorId, hnear] at hcid
        by_cases hgap : env.dist pt gc.1 < MAX_CONNECTION_GAP
        · rw [if_pos hgap] at hcid
          injection hcid with hcid
          unfold nearestGeom at hnear
          rw [hnear] at haux
          have hmem : gc ∈ gs := by
            rcases haux.1 with h | h
            · exact h
            · cases h
          exact ⟨gc, hmem, hcid, hgap, haux.2.1⟩
        · rw [if_neg hgap] at hcid
          cases hcid
  · intro hnone gp hgp
    cases hnear : nearestGeom env gs pt with
    | none =>
        unfold nearestGeom at hnear
        rw [hnear] at haux
        rw [haux.1] at hgp
        cases hgp
    | some gc =>
        simp only [closestConnectorId, hnear] at hnone
        by_cases hgap : env.dist pt gc.1 < MAX_CONNECTION_GAP
        · rw [if_pos hgap] at hnone; cases hnone
        · unfold nearestGeom at hnear
          rw [hnear] at haux
          exact le_trans (not_lt.mp hgap) (haux.2.1 gp hgp)

/-- Claim C9: each of a connection's two geometric endpoints is resolved to
the nearest registered connector when that connector's distance is below
`MAX_CONNECTION_GAP` (first two conjuncts characterize
`__closest_connector_id` as exactly that); when no connector is within
tolerance a connector with kind `CONNECTOR_FREE_END` is synthesized at that
endpoint, registered, and used as the resolved id; and when exactly one
endpoint is free the synthesized connector inherits the domain class of the
connector resolved at the other endpoint. -/
theorem connection_end_resolution {γc : Type} (env : CCEnv γc) (st : CCState γc)
    (conn : ConnectionM) :
    (∀ pt cid, closestConnectorId env st.connectorGeoms pt = some cid →
       ∃ gp ∈ st.connectorGeoms, gp.2 = cid ∧
         env.dist pt gp.1 < MAX_CONNECTION_GAP ∧
         ∀ gq ∈ st.connectorGeoms, env.dist pt gp.1 ≤ env.dist pt gq.1) ∧
    (∀ pt, closestConnectorId env st.connectorGeoms pt = none →
       ∀ gp ∈ st.connectorGeoms, MAX_CONNECTION_GAP ≤ env.dist pt gp.1) ∧
    (match closestConnectorId env st.connectorGeoms (conn.geometry.headD (0, 0)),
           closestConnectorId env st.connectorGeoms (conn.geometry.getLastD (0, 0)) with
     | some a, some b =>
         (resolveEnds env st conn).endIds = [a, b] ∧
         (resolveEnds env st conn).freeIds = [] ∧
         (resolveEnds env st conn).state = st
     | some a, none =>
         (resolveEnds env st conn).endIds = [a, freeEndId conn.id (-1)] ∧
         ∃ fc, (resolveEnds env st conn).state = addConnectorNode st fc ∧
           fc.id = freeEndId conn.id (-1) ∧
           fc.fcKind = FC_KIND.CONNECTOR_FREE_END ∧
           (resolveEnds env st conn).freeIds = [fc.id] ∧
           ∀ rc, lookupConnector st a = some rc → fc.fcClass = rc.fcClass
     | none, some b =>
         (resolveEnds env st conn).endIds = [b, freeEndId conn.id 0] ∧
         ∃ fc, (resolveEnds env st conn).state = addConnectorNode st fc ∧
           fc.id = freeEndId conn.id 0 ∧
           fc.fcKind = FC_KIND.CONNECTOR_FREE_END ∧
           (resolveEnds env st conn).freeIds = [fc.id] ∧
           ∀ rc, lookupConnector st b = some rc → fc.fcClass = rc.fcClass
     | none, none =>
         (resolveEnds env st conn).endIds =
           [freeEndId conn.id 0, freeEndId conn.id (-1)] ∧
         ∃ fc0 fc1,
           (resolveEnds env st conn).state =
             addConnectorNode (addConnectorNode st fc0) fc1 ∧
           fc0.id = freeEndId conn.id 0 ∧ fc1.id = freeEndId conn.id (-1) ∧
           fc0.fcKind = FC_KIND.CONNECTOR_FREE_END ∧
           fc1.fcKind = FC_KIND.CONNECTOR_FREE_END ∧
           fc0.fcClass = FC_CLASS.UNKNOWN ∧ fc1.fcClass = FC_CLASS.UNKNOWN) := by
  refine ⟨fun pt => (closestConnectorId_spec env st.connectorGeoms pt).1,
          fun pt => (closestConnectorId_spec env st.connectorGeoms pt).2, ?_⟩
  cases h0 : closestConnectorId env st.connectorGeoms (conn.geometry.headD (0, 0)) with
  | some a =>
      cases h1 : closestConnectorId env st.connectorGeoms
          (conn.geometry.getLastD (0, 0)) with
      | some b =>
          simp only [resolveEnds, List.foldl_cons, List.foldl_nil, resolveStep,
            h0, h1, List.nil_append, List.append_nil, List.length_cons,
            List.length_nil, List.map_nil]
          exact ⟨rfl, rfl, rfl⟩
      | none =>
          cases hrc : lookupConnector st a with
          | some rc =>
              simp only [resolveEnds, List.foldl_cons, List.foldl_nil, resolveStep,
                h0, h1, List.nil_append, List.append_nil, List.length_cons,
                List.length_nil, List.map_cons, List.map_nil, List.head?_cons,
                eq_self_iff_true, if_true, hrc]
              exact ⟨rfl,
                ⟨_, rfl, rfl, rfl, rfl, fun rc' hrc' => by
                  injection hrc' with h; rw [← h]⟩⟩
          | none =>
              simp only [resolveEnds, List.foldl_cons, List.foldl_nil, resolveStep,
                h0, h1, List.nil_append, List.append_nil, List.length_cons,
                List.length_nil, List.map_cons, List.map_nil, List.head?_cons,
                eq_self_iff_true, if_true, hrc]
              exact ⟨rfl,
                ⟨_, rfl, rfl, rfl, rfl, fun rc' hrc' => by cases hrc'⟩⟩
  | none =>
      cases h1 : closestConnectorId env st.connectorGeoms
          (conn.geometry.getLastD (0, 0)) with
      | some b =>
          cases hrc : lookupConnector st b with
          | some rc =>
              simp only [resolveEnds, List.foldl_cons, List.foldl_nil, resolveStep,
                h0, h1, List.nil_append, List.append_nil, List.length_cons,
                List.length_nil, List.map_cons, List.map_nil, List.head?_cons,
                eq_self_iff_true, if_true, hrc]
              exact ⟨rfl,
                ⟨_, rfl, rfl, rfl, rfl, fun rc' hrc' => by
                  injection hrc' with h; rw [← h]⟩⟩
          | none =>
              simp only [resolveEnds, List.foldl_cons, List.foldl_nil, resolveStep,
                h0, h1, List.nil_append, List.append_nil, List.length_cons,
                List.length_nil, List.map_cons, List.map_nil, List.head?_cons,
                eq_self_iff_true, if_true, hrc]
              exact ⟨rfl,
                ⟨_, rfl, rfl, rfl, rfl, fun rc' hrc' => by cases hrc'⟩⟩
      | none =>
          simp only [resolveEnds, List.foldl_cons, List.foldl_nil, resolveStep,
            h0, h1, List.nil_append, List.append_nil, List.length_cons,
            List.length_nil, List.map_cons, List.map_nil]
          exact ⟨rfl, ⟨_, _, rfl, rfl, rfl, rfl, rfl, rfl, rfl⟩⟩

/-- Concrete geometric capabilities for exercising the filter: geometry `0`
is the recorded reference, geometry `1` the filtered shape; they intersect
with intersection area 9 against areas of 10 (80 percent mutual overlap but
not 98 percent). -/
def wFilterOps : FilterOps ℕ :=
  { isPolygonal := fun _ => true,
    intersects := fun a b => a == 0 && b == 1,
    interArea := fun _ _ => 9,
    area := fun _ => 10 }

/-- A finalized filter holding one recorded reference geometry. -/
def wFilterState : SFState ℕ :=
  { geoms := [(0, ⟨"ref", some "red", 1, "r1"⟩)], rtree := some (some [0]) }

/-- A polygonal shape overlapping the recorded reference by 90 percent. -/
def wFilterShape : FShape ℕ :=
  { id := "s1", geometry := some 1, name := "n", colour := none, opacity := 1 }

/-- Witness for claim C7: the filter specification applied to the concrete
finalized filter and shape above. -/
theorem shapefilter_filter_spec_witness :
    ∃ b s', SFState.filter wFilterOps wFilterState wFilterShape =
        Except.ok (b, s', wFilterState) ∧
      ((b = true) ↔ ∃ ga ∈ wFilterState.geoms,
         wFilterOps.intersects ga.1 1 = true ∧
         (overlapMatch wFilterOps ga.1 1 (98/100) ∨
          overlapMatch wFilterOps ga.1 1 (80/100) ∨
          attrsEq (commonAttrs wFilterShape) ga.2 = true)) ∧
      (b = true → s'.exclude = true ∧
        ∃ ga ∈ wFilterState.geoms, s'.annotated = some ga.2 ∧
          wFilterOps.intersects ga.1 1 = true ∧
          (overlapMatch wFilterOps ga.1 1 (98/100) ∨
           overlapMatch wFilterOps ga.1 1 (80/100) ∨
           attrsEq (commonAttrs wFilterShape) ga.2 = true)) ∧
      (b = false → s' = wFilterShape) :=
  shapefilter_filter_spec wFilterOps wFilterState wFilterShape [0] rfl 1 rfl rfl

end Flatmap

namespace Flatmap

/-! ## Containment-forest construction
(`classify.py`, `ShapeClassifier.__init__`, lines 177-191; claim C1)

The spatial index holds the geometries captured during the per-shape pass
(`qgeom`); sorting uses the shape's current geometry (`geom`), which for a
shape is the same object unless it was replaced after indexing.  Identifiers
come from an arbitrary linear order (Python compares the string ids with
`<`), and the shapely predicate `contains_properly` is an abstract boolean
relation on geometries. -/

/-- A shape as seen by the forest builder. -/
structure CShape (α γ : Type) where
  id : α
  qgeom : γ
  geom : γ
  deriving DecidableEq, Repr

/-- The geometric capabilities the forest builder consumes. -/
structure GeomModel (γ : Type) where
  area : γ → ℚ
  containsProperly : γ → γ → Bool

variable {α γ : Type}

/-- The `parent_child` candidate list (`classify.py`, lines 179-186): for
every indexed geometry of positive area, every indexed geometry it properly
contains that itself has positive area yields a (parent, child) pair. -/
def parentChild (M : GeomModel γ) (shapes : List (CShape α γ)) :
    List (CShape α γ × CShape α γ) :=
  shapes.flatMap (fun p =>
    if 0 < M.area p.qgeom then
      ((shapes.filter (fun c =>
          M.containsProperly p.qgeom c.qgeom && decide (0 < M.area c.qgeom))).map
        (fun c => (p, c)))
    else [])

/-- The sort key of `classify.py`, line 188: `(child.id, parent area)`,
compared lexicographically as Python's tuple sort does. -/
def pairLe [LinearOrder α] (M : GeomModel γ)
    (e f : CShape α γ × CShape α γ) : Prop :=
  e.2.id < f.2.id ∨ (e.2.id = f.2.id ∧ M.area e.1.geom ≤ M.area f.1.geom)

instance [LinearOrder α] (M : GeomModel γ) :
    DecidableRel (pairLe (α := α) M) := fun _ _ => by
  unfold pairLe; infer_instance

/-- Stable insertion: the new element goes before the first element that is
not strictly smaller, so that elements with equal keys keep their original
relative order (Python's `sorted` is stable). -/
def insertP [LinearOrder α] (M : GeomModel γ) (x : CShape α γ × CShape α γ) :
    List (CShape α γ × CShape α γ) → List (CShape α γ × CShape α γ)
  | [] => [x]
  | y :: ys => if pairLe M x y then x :: y :: ys else y :: insertP M x ys

/-- Stable sort by `(child id, parent area)` — the embedding of
`sorted(parent_child, key=...)`. -/
def sortPairs [LinearOrder α] (M : GeomModel γ) :
    List (CShape α γ × CShape α γ) → List (CShape α γ × CShape α γ)
  | [] => []
  | x :: xs => insertP M x (sortPairs M xs)

/-- The assignment loop of `classify.py`, lines 187-191: walk the sorted
pairs, calling `child.add_parent(parent)` only when the child id differs
from the previously assigned one.  The result lists the `(child id, parent)`
assignments made. -/
def assignLoop [DecidableEq α] : Option α → List (CShape α γ × CShape α γ) →
    List (α × CShape α γ)
  | _, [] => []
  | last, (p, c) :: rest =>
      if last = some c.id then assignLoop last rest
      else (c.id, p) :: assignLoop (some c.id) rest

/-- The whole containment-forest construction. -/
def assignParents [LinearOrder α] (M : GeomModel γ)
    (shapes : List (CShape α γ)) : List (α × CShape α γ) :=
  assignLoop none (sortPairs M (parentChild M shapes))

/-- The minimal-area candidate for a given child id, ties resolved in favour
of the earlier pair: the specification's "smallest area among all
candidates, ties broken by processing order". -/
def bestFor [DecidableEq α] (M : GeomModel γ) (b : α) :
    List (CShape α γ × CShape α γ) → Option (CShape α γ × CShape α γ)
  | [] => none
  | (p, c) :: rest =>
      if c.id = b then
        match bestFor M b rest with
        | none => some (p, c)
        | some (q, d) =>
            if M.area q.geom < M.area p.geom then some (q, d) else some (p, c)
      else bestFor M b rest

end Flatmap

namespace Flatmap

variable {α γ : Type}

theorem pairLe_trans [LinearOrder α] (M : GeomModel γ)
    (e f g : CShape α γ × CShape α γ) (h1 : pairLe M e f) (h2 : pairLe M f g) :
    pairLe M e g := by
  rcases h1 with h | ⟨ha, hb⟩ <;> rcases h2 with h' | ⟨ha', hb'⟩
  · exact Or.inl (lt_trans h h')
  · exact Or.inl (ha' ▸ h)
  · exact Or.inl (ha ▸ h')
  · exact Or.inr ⟨ha.trans ha', le_trans hb hb'⟩

theorem pairLe_total [LinearOrder α] (M : GeomModel γ)
    (e f : CShape α γ × CShape α γ) : pairLe M e f ∨ pairLe M f e := by
  rcases lt_trichotomy e.2.id f.2.id with h | h | h
  · exact Or.inl (Or.inl h)
  · rcases le_total (M.area e.1.geom) (M.area f.1.geom) with h2 | h2
    · exact Or.inl (Or.inr ⟨h, h2⟩)
    · exact Or.inr (Or.inr ⟨h.symm, h2⟩)
  · exact Or.inr (Or.inl h)

theorem insertP_mem [LinearOrder α] (M : GeomModel γ)
    (x e : CShape α γ × CShape α γ) :
    ∀ s, e ∈ insertP M x s ↔ e = x ∨ e ∈ s := by
  intro s
  induction s with
  | nil => simp [insertP]
  | cons y ys ih =>
      unfold insertP
      by_cases h : pairLe M x y
      · rw [if_pos h]
        simp only [List.mem_cons]
      · rw [if_neg h]
        simp only [List.mem_cons, ih]
        tauto

theorem sortPairs_mem [LinearOrder α] (M : GeomModel γ)
    (e : CShape α γ × CShape α γ) :
    ∀ l, e ∈ sortPairs M l ↔ e ∈ l := by
  intro l
  induction l with
  | nil => simp [sortPairs]
  | cons x xs ih =>
      unfold sortPairs
      rw [insertP_mem, ih]
      simp [List.mem_cons]

theorem insertP_pairwise [LinearOrder α] (M : GeomModel γ)
    (x : CShape α γ × CShape α γ) :
    ∀ s, s.Pairwise (pairLe M) → (insertP M x s).Pairwise (pairLe M) := by
  intro s
  induction s with
  | nil => intro _; simp [insertP]
  | cons y ys ih =>
      intro hpw
      rcases List.pairwise_cons.mp hpw with ⟨hy, hys⟩
      unfold insertP
      by_cases h : pairLe M x y
      · rw [if_pos h]
        refine List.pairwise_cons.mpr ⟨?_, hpw⟩
        intro e he
        rcases List.mem_cons.mp he with rfl | he'
        · exact h
        · exact pairLe_trans M x y e h (hy e he')
      · rw [if_neg h]
        refine List.pairwise_cons.mpr ⟨?_, ih hys⟩
        intro e he
        rcases (insertP_mem M x e ys).mp he with he' | he'
        · subst he'
          rcases pairLe_total M e y with h' | h'
          · exact absurd h' h
          · exact h'
        · exact hy e he'

theorem sortPairs_pairwise [LinearOrder α] (M : GeomModel γ) :
    ∀ l : List (CShape α γ × CShape α γ),
      (sortPairs M l).Pairwise (pairLe M) := by
  intro l
  induction l with
  | nil => simp [sortPairs]
  | cons x xs ih => exact insertP_pairwise M x _ ih

end Flatmap


namespace Flatmap

variable {α γ : Type}

/-- Non-decreasing child ids, the first component of the sort key. -/
abbrev idLeP [LE α] (e f : CShape α γ × CShape α γ) : Prop := e.2.id ≤ f.2.id

theorem sorted_idLe [LinearOrder α] (M : GeomModel γ)
    (l : List (CShape α γ × CShape α γ)) (h : l.Pairwise (pairLe M)) :
    l.Pairwise (idLeP (α := α) (γ := γ)) := by
  refine h.imp ?_
  rintro e f (h' | ⟨h1, _⟩)
  · exact le_of_lt h'
  · exact le_of_eq h1

/-- Every id in the list is at least the last-assigned id. -/
abbrev lastLe [LE α] (last : Option α) (l : List (CShape α γ × CShape α γ)) : Prop :=
  ∀ e ∈ l, ∀ a, last = some a → a ≤ e.2.id

theorem lastLe_tail [LE α] (last : Option α) (x : CShape α γ × CShape α γ)
    (l : List (CShape α γ × CShape α γ)) (h : lastLe last (x :: l)) :
    lastLe last l :=
  fun e he => h e (List.mem_cons_of_mem x he)

theorem assignLoop_nil [DecidableEq α] (last : Option α) :
    assignLoop (γ := γ) last [] = [] := rfl

theorem assignLoop_cons [DecidableEq α] (last : Option α) (p c : CShape α γ)
    (rest : List (CShape α γ × CShape α γ)) :
    assignLoop last ((p, c) :: rest) =
      if last = some c.id then assignLoop last rest
      else (c.id, p) :: assignLoop (some c.id) rest := rfl

/-- On a child-id-sorted pair list the assignment loop emits strictly
increasing child ids, all above the incoming last-assigned id. -/
theorem assignLoop_ids [LinearOrder α] :
    ∀ (l : List (CShape α γ × CShape α γ)) (last : Option α),
      l.Pairwise (idLeP (α := α) (γ := γ)) → lastLe last l →
      ((assignLoop last l).map (·.1)).Pairwise (· < ·) ∧
      ∀ b ∈ (assignLoop last l).map (·.1), ∀ a, last = some a → a < b := by
  intro l
  induction l with
  | nil =>
      intro last _ _
      exact ⟨by simp [assignLoop_nil], by simp [assignLoop_nil]⟩
  | cons pc rest ih =>
      intro last hpw hle
      obtain ⟨p, c⟩ := pc
      rcases List.pairwise_cons.mp hpw with ⟨hhead, htail⟩
      by_cases hl : last = some c.id
      · rw [assignLoop_cons, if_pos hl]
        exact ih last htail (lastLe_tail last (p, c) rest hle)
      · rw [assignLoop_cons, if_neg hl]
        have htl : lastLe (some c.id) rest := by
          intro e he a ha
          injection ha with ha
          rw [← ha]
          exact hhead e he
        obtain ⟨hpw', hgt'⟩ := ih (some c.id) htail htl
        constructor
        · rw [List.map_cons]
          refine List.pairwise_cons.mpr ⟨?_, hpw'⟩
          intro b hb
          exact hgt' b hb c.id rfl
        · intro b hb a ha
          rw [List.map_cons] at hb
          rcases List.mem_cons.mp hb with rfl | hb'
          · refine lt_of_le_of_ne (hle (p, c) (List.mem_cons_self _ _) a ha) ?_
            intro hac
            rw [hac] at ha
            exact hl ha
          · exact lt_of_le_of_lt (hle (p, c) (List.mem_cons_self _ _) a ha)
              (hgt' b hb' c.id rfl)

/-- Everything the assignment loop emits comes from a pair in its input. -/
theorem assignLoop_sub [DecidableEq α] :
    ∀ (l : List (CShape α γ × CShape α γ)) (last : Option α)
      (pr : α × CShape α γ), pr ∈ assignLoop last l →
      ∃ c, (pr.2, c) ∈ l ∧ c.id = pr.1 := by
  intro l
  induction l with
  | nil => intro last pr hpr; rw [assignLoop_nil] at hpr; cases hpr
  | cons pc rest ih =>
      intro last pr hpr
      obtain ⟨p, c⟩ := pc
      by_cases hl : last = some c.id
      · rw [assignLoop_cons, if_pos hl] at hpr
        obtain ⟨c', hc', hid⟩ := ih last pr hpr
        exact ⟨c', List.mem_cons_of_mem _ hc', hid⟩
      · rw [assignLoop_cons, if_neg hl] at hpr
        rcases List.mem_cons.mp hpr with rfl | hpr'
        · exact ⟨c, List.mem_cons_self _ _, rfl⟩
        · obtain ⟨c', hc', hid⟩ := ih (some c.id) pr hpr'
          exact ⟨c', List.mem_cons_of_mem _ hc', hid⟩

/-- On a child-id-sorted list, the loop assigns child id `b` the parent of
the first pair with that child id, and only when the id was not the one
just assigned. -/
theorem assignLoop_mem [LinearOrder α] :
    ∀ (l : List (CShape α γ × CShape α γ)) (last : Option α),
      l.Pairwise (idLeP (α := α) (γ := γ)) → lastLe last l →
      ∀ (b : α) (p : CShape α γ),
        ((b, p) ∈ assignLoop last l ↔
          last ≠ some b ∧
          ∃ c, l.find? (fun e => decide (e.2.id = b)) = some (p, c)) := by
  intro l
  induction l with
  | nil =>
      intro last _ _ b p
      rw [assignLoop_nil]
      simp
  | cons pc rest ih =>
      intro last hpw hle b p
      obtain ⟨q, d⟩ := pc
      rcases List.pairwise_cons.mp hpw with ⟨hhead, htail⟩
      by_cases hl : last = some d.id
      · rw [assignLoop_cons, if_pos hl]
        by_cases hdb : d.id = b
        · subst hdb
          constructor
          · intro hmem
            have := (ih last htail (lastLe_tail last (q, d) rest hle) d.id p).mp hmem
            exact absurd hl this.1
          · rintro ⟨hne, _⟩
            exact absurd hl hne
        · rw [List.find?_cons_of_neg _ (by simp [hdb])]
          exact ih last htail (lastLe_tail last (q, d) rest hle) b p
      · rw [assignLoop_cons, if_neg hl]
        have htl : lastLe (some d.id) rest := by
          intro e he a ha
          injection ha with ha
          rw [← ha]
          exact hhead e he
        by_cases hdb : d.id = b
        · subst hdb
          rw [List.find?_cons_of_pos _ (by simp)]
          constructor
          · intro hmem
            rcases List.mem_cons.mp hmem with heq | hmem'
            · have hp : q = p := (congrArg Prod.snd heq).symm
              exact ⟨hl, d, by rw [hp]⟩
            · have := (ih (some d.id) htail htl d.id p).mp hmem'
              exact absurd rfl this.1
          · rintro ⟨hne, c, hc⟩
            injection hc with hc
            have hq : q = p := congrArg Prod.fst hc
            rw [← hq]
            exact List.mem_cons_self _ _
        · rw [List.find?_cons_of_neg _ (by simp [hdb])]
          constructor
          · intro hmem
            rcases List.mem_cons.mp hmem with heq | hmem'
            · exact absurd (congrArg Prod.fst heq).symm hdb
            · have := (ih (some d.id) htail htl b p).mp hmem'
              refine ⟨?_, this.2⟩
              intro hlast
              obtain ⟨c, hc⟩ := this.2
              have hcmem := List.mem_of_find?_eq_some hc
              have hcid : c.id = b := by
                have := List.find?_some hc
                simpa using this
              have h1 : b ≤ d.id :=
                hle (q, d) (List.mem_cons_self _ _) b hlast
              have h2 : d.id ≤ b := by
                have := hhead (p, c) hcmem
                unfold idLeP at this
                rw [hcid] at this
                exact this
              exact hdb (le_antisymm h2 h1)
          · rintro ⟨hne, c, hc⟩
            refine List.mem_cons_of_mem _ ?_
            refine (ih (some d.id) htail htl b p).mpr ⟨?_, c, hc⟩
            intro hsome
            injection hsome with hsome
            exact hdb hsome

end Flatmap

namespace Flatmap

variable {α γ : Type}

theorem bestFor_nil [DecidableEq α] (M : GeomModel γ) (b : α) :
    bestFor M b ([] : List (CShape α γ × CShape α γ)) = none := rfl

theorem bestFor_cons [DecidableEq α] (M : GeomModel γ) (b : α)
    (p c : CShape α γ) (rest : List (CShape α γ × CShape α γ)) :
    bestFor M b ((p, c) :: rest) =
      if c.id = b then
        match bestFor M b rest with
        | none => some (p, c)
        | some (q, d) =>
            if M.area q.geom < M.area p.geom then some (q, d) else some (p, c)
      else bestFor M b rest := rfl

theorem bestFor_id [DecidableEq α] (M : GeomModel γ) (b : α) :
    ∀ (l : List (CShape α γ × CShape α γ)) (pr : CShape α γ × CShape α γ),
      bestFor M b l = some pr → pr.2.id = b := by
  intro l
  induction l with
  | nil => intro pr h; rw [bestFor_nil] at h; cases h
  | cons pc rest ih =>
      intro pr h
      obtain ⟨p, c⟩ := pc
      rw [bestFor_cons] at h
      by_cases hcb : c.id = b
      · rw [if_pos hcb] at h
        cases hbf : bestFor M b rest with
        | none =>
            rw [hbf] at h
            injection h with h
            rw [← h]
            exact hcb
        | some qd =>
            obtain ⟨q, d⟩ := qd
            rw [hbf] at h
            dsimp only at h
            by_cases harea : M.area q.geom < M.area p.geom
            · rw [if_pos harea] at h
              injection h with h
              rw [← h]
              exact ih (q, d) hbf
            · rw [if_neg harea] at h
              injection h with h
              rw [← h]
              exact hcb
      · rw [if_neg hcb] at h
        exact ih pr h

theorem bestFor_none [DecidableEq α] (M : GeomModel γ) (b : α) :
    ∀ (l : List (CShape α γ × CShape α γ)), bestFor M b l = none →
      ∀ qd ∈ l, qd.2.id ≠ b := by
  intro l
  induction l with
  | nil => intro _ qd hqd; cases hqd
  | cons pc rest ih =>
      intro h qd hqd
      obtain ⟨p, c⟩ := pc
      rw [bestFor_cons] at h
      by_cases hcb : c.id = b
      · rw [if_pos hcb] at h
        cases hbf : bestFor M b rest with
        | none => rw [hbf] at h; cases h
        | some qd' =>
            obtain ⟨q, d⟩ := qd'
            rw [hbf] at h
            dsimp only at h
            by_cases harea : M.area q.geom < M.area p.geom
            · rw [if_pos harea] at h; cases h
            · rw [if_neg harea] at h; cases h
      · rw [if_neg hcb] at h
        rcases List.mem_cons.mp hqd with rfl | hqd'
        · exact hcb
        · exact ih h qd hqd'

/-- The first-seen minimal-area candidate is a candidate of minimal area. -/
theorem bestFor_spec [DecidableEq α] (M : GeomModel γ) (b : α) :
    ∀ (l : List (CShape α γ × CShape α γ)) (pr : CShape α γ × CShape α γ),
      bestFor M b l = some pr →
      pr ∈ l ∧ ∀ qd ∈ l, qd.2.id = b →
        M.area pr.1.geom ≤ M.area qd.1.geom := by
  intro l
  induction l with
  | nil => intro pr h; rw [bestFor_nil] at h; cases h
  | cons pc rest ih =>
      intro pr h
      obtain ⟨p, c⟩ := pc
      rw [bestFor_cons] at h
      by_cases hcb : c.id = b
      · rw [if_pos hcb] at h
        cases hbf : bestFor M b rest with
        | none =>
            rw [hbf] at h
            injection h with h
            subst h
            refine ⟨List.mem_cons_self _ _, ?_⟩
            intro qd hqd hb
            rcases List.mem_cons.mp hqd with rfl | hqd'
            · exact le_refl _
            · exact absurd hb (bestFor_none M b rest hbf qd hqd')
        | some qd' =>
            obtain ⟨q, d⟩ := qd'
            rw [hbf] at h
            dsimp only at h
            obtain ⟨hmem', hmin'⟩ := ih (q, d) hbf
            by_cases harea : M.area q.geom < M.area p.geom
            · rw [if_pos harea] at h
              injection h with h
              subst h
              refine ⟨List.mem_cons_of_mem _ hmem', ?_⟩
              intro qd hqd hb
              rcases List.mem_cons.mp hqd with rfl | hqd'
              · exact le_of_lt harea
              · exact hmin' qd hqd' hb
            · rw [if_neg harea] at h
              injection h with h
              subst h
              refine ⟨List.mem_cons_self _ _, ?_⟩
              intro qd hqd hb
              rcases List.mem_cons.mp hqd with rfl | hqd'
              · exact le_refl _
              · exact le_trans (not_lt.mp harea) (hmin' qd hqd' hb)
      · rw [if_neg hcb] at h
        obtain ⟨hmem', hmin'⟩ := ih pr h
        refine ⟨List.mem_cons_of_mem _ hmem', ?_⟩
        intro qd hqd hb
        rcases List.mem_cons.mp hqd with rfl | hqd'
        · exact absurd hb hcb
        · exact hmin' qd hqd' hb

theorem find?_insertP_neg [LinearOrder α] (M : GeomModel γ) (b : α)
    (x : CShape α γ × CShape α γ) (hxb : x.2.id ≠ b) :
    ∀ s, (insertP M x s).find? (fun e => decide (e.2.id = b)) =
      s.find? (fun e => decide (e.2.id = b)) := by
  intro s
  induction s with
  | nil =>
      show List.find? _ [x] = List.find? _ []
      rw [List.find?_cons_of_neg _ (by simp [hxb]), List.find?_nil]
  | cons y ys ih =>
      unfold insertP
      by_cases h : pairLe M x y
      · rw [if_pos h, List.find?_cons_of_neg _ (by simp [hxb])]
      · rw [if_neg h]
        by_cases hyb : y.2.id = b
        · rw [List.find?_cons_of_pos _ (by simp [hyb]),
            List.find?_cons_of_pos _ (by simp [hyb])]
        · rw [List.find?_cons_of_neg _ (by simp [hyb]),
            List.find?_cons_of_neg _ (by simp [hyb]), ih]

theorem find?_insertP_pos [LinearOrder α] (M : GeomModel γ) (b : α)
    (x : CShape α γ × CShape α γ) (hxb : x.2.id = b) :
    ∀ s, s.Pairwise (pairLe M) →
      (insertP M x s).find? (fun e => decide (e.2.id = b)) =
        match s.find? (fun e => decide (e.2.id = b)) with
        | none => some x
        | some e => if pairLe M x e then some x else some e := by
  intro s
  induction s with
  | nil =>
      intro _
      show List.find? _ [x] = some x
      rw [List.find?_cons_of_pos _ (by simp [hxb])]
  | cons y ys ih =>
      intro hpw
      rcases List.pairwise_cons.mp hpw with ⟨hy, hys⟩
      unfold insertP
      by_cases h : pairLe M x y
      · rw [if_pos h, List.find?_cons_of_pos _ (by simp [hxb])]
        by_cases hyb : y.2.id = b
        · rw [List.find?_cons_of_pos _ (by simp [hyb])]
          dsimp only
          rw [if_pos h]
        · rw [List.find?_cons_of_neg _ (by simp [hyb])]
          cases hfind : ys.find? (fun e => decide (e.2.id = b)) with
          | none => rfl
          | some e =>
              have hemem := List.mem_of_find?_eq_some hfind
              dsimp only
              rw [if_pos (pairLe_trans M x y e h (hy e hemem))]
      · rw [if_neg h]
        by_cases hyb : y.2.id = b
        · rw [List.find?_cons_of_pos _ (by simp [hyb]),
            List.find?_cons_of_pos _ (by simp [hyb])]
          dsimp only
          rw [if_neg h]
        · rw [List.find?_cons_of_neg _ (by simp [hyb]),
            List.find?_cons_of_neg _ (by simp [hyb]), ih hys]

/-- The first pair with a given child id in the stable sort of the
candidate list is the stable minimal-area candidate for that child. -/
theorem find?_sortPairs [LinearOrder α] (M : GeomModel γ) (b : α) :
    ∀ l : List (CShape α γ × CShape α γ),
      (sortPairs M l).find? (fun e => decide (e.2.id = b)) = bestFor M b l := by
  intro l
  induction l with
  | nil => rfl
  | cons x xs ih =>
      obtain ⟨p, c⟩ := x
      show (insertP M (p, c) (sortPairs M xs)).find? _ = _
      rw [bestFor_cons]
      by_cases hcb : c.id = b
      · rw [if_pos hcb,
          find?_insertP_pos M b (p, c) hcb (sortPairs M xs) (sortPairs_pairwise M xs),
          ih]
        cases hbf : bestFor M b xs with
        | none => rfl
        | some qd =>
            obtain ⟨q, d⟩ := qd
            dsimp only
            have hdid : d.id = b := bestFor_id M b xs (q, d) hbf
            by_cases harea : M.area q.geom < M.area p.geom
            · rw [if_pos harea, if_neg ?_]
              intro hcon
              unfold pairLe at hcon
              rcases hcon with hlt | ⟨_, hle⟩
              · rw [hcb, hdid] at hlt
                exact lt_irrefl b hlt
              · exact absurd harea (not_lt.mpr hle)
            · rw [if_neg harea,
                if_pos (show pairLe M (p, c) (q, d) from
                  Or.inr ⟨by rw [hcb, hdid], not_lt.mp harea⟩)]
      · rw [if_neg hcb, find?_insertP_neg M b (p, c) hcb, ih]

end Flatmap

namespace Flatmap

variable {α γ : Type}

theorem parentChild_mem (M : GeomModel γ) (shapes : List (CShape α γ))
    (p c : CShape α γ) :
    (p, c) ∈ parentChild M shapes ↔
      p ∈ shapes ∧ c ∈ shapes ∧ 0 < M.area p.qgeom ∧
      M.containsProperly p.qgeom c.qgeom = true ∧ 0 < M.area c.qgeom := by
  unfold parentChild
  rw [List.mem_flatMap]
  constructor
  · rintro ⟨p', hp', hmem⟩
    by_cases hap : 0 < M.area p'.qgeom
    · rw [if_pos hap] at hmem
      rw [List.mem_map] at hmem
      obtain ⟨c', hc', heq⟩ := hmem
      have hp2 : p' = p := congrArg Prod.fst heq
      have hc2 : c' = c := congrArg Prod.snd heq
      subst hp2
      subst hc2
      rw [List.mem_filter] at hc'
      have hconds := hc'.2
      rw [Bool.and_eq_true, decide_eq_true_eq] at hconds
      exact ⟨hp', hc'.1, hap, hconds.1, hconds.2⟩
    · rw [if_neg hap] at hmem
      cases hmem
  · rintro ⟨hp, hc, hap, hcp, hac⟩
    refine ⟨p, hp, ?_⟩
    rw [if_pos hap, List.mem_map]
    refine ⟨c, List.mem_filter.mpr ⟨hc, ?_⟩, rfl⟩
    rw [Bool.and_eq_true, decide_eq_true_eq]
    exact ⟨hcp, hac⟩

/-- Claim C1: under the geometric facts about proper containment
(irreflexive and transitive on the indexed geometries) and distinct shape
identifiers, the containment-forest construction assigns at most one parent
per child (no child id repeats), its parent relation has no cycles, and each
assigned parent is the first-seen minimal-area candidate among all
candidates properly containing the child with positive area — the candidate
pairs being sorted stably by (child id, parent area ascending) with each
child receiving its first-seen parent only. -/
theorem containment_forest_invariant [LinearOrder α] (M : GeomModel γ)
    (shapes : List (CShape α γ))
    (hids : (shapes.map (·.id)).Nodup)
    (hirr : ∀ s ∈ shapes, M.containsProperly s.qgeom s.qgeom = false)
    (htrans : ∀ s1 ∈ shapes, ∀ s2 ∈ shapes, ∀ s3 ∈ shapes,
        M.containsProperly s1.qgeom s2.qgeom = true →
        M.containsProperly s2.qgeom s3.qgeom = true →
        M.containsProperly s1.qgeom s3.qgeom = true) :
    ((assignParents M shapes).map (·.1)).Nodup ∧
    (¬ ∃ a : α, Relation.TransGen
        (fun x y => ∃ pr ∈ assignParents M shapes, pr.1 = x ∧ pr.2.id = y) a a) ∧
    (∀ pr ∈ assignParents M shapes,
       ∃ c, (pr.2, c) ∈ parentChild M shapes ∧ c.id = pr.1 ∧
         bestFor M pr.1 (parentChild M shapes) = some (pr.2, c) ∧
         ∀ qd ∈ parentChild M shapes, qd.2.id = pr.1 →
           M.area pr.2.geom ≤ M.area qd.1.geom) := by
  have hpw := sortPairs_pairwise M (parentChild M shapes)
  have hidpw := sorted_idLe M _ hpw
  have hbound : lastLe (none : Option α) (sortPairs M (parentChild M shapes)) :=
    fun e _ a ha => by cases ha
  have idInj : ∀ a ∈ shapes, ∀ b ∈ shapes, a.id = b.id → a = b := by
    intro a ha b hb hab
    exact List.inj_on_of_nodup_map hids ha hb hab
  refine ⟨?_, ?_, ?_⟩
  · obtain ⟨hpl, _⟩ := assignLoop_ids (sortPairs M (parentChild M shapes))
      none hidpw hbound
    exact hpl.imp ne_of_lt
  · rintro ⟨a, hta⟩
    -- parent links are included in the geometric containment relation on ids
    have hsub : ∀ x y : α,
        (∃ pr ∈ assignParents M shapes, pr.1 = x ∧ pr.2.id = y) →
        ∃ cs ps : CShape α γ, cs ∈ shapes ∧ ps ∈ shapes ∧ cs.id = x ∧
          ps.id = y ∧ M.containsProperly ps.qgeom cs.qgeom = true := by
      rintro x y ⟨pr, hpr, hx, hy⟩
      obtain ⟨c, hc, hcid⟩ := assignLoop_sub _ none pr hpr
      have hcand : (pr.2, c) ∈ parentChild M shapes :=
        (sortPairs_mem M _ _).mp hc
      rw [parentChild_mem] at hcand
      exact ⟨c, pr.2, hcand.2.1, hcand.1, by rw [hcid, hx], by rw [hy],
        hcand.2.2.2.1⟩
    have htrans' : Transitive (fun x y : α =>
        ∃ cs ps : CShape α γ, cs ∈ shapes ∧ ps ∈ shapes ∧ cs.id = x ∧
          ps.id = y ∧ M.containsProperly ps.qgeom cs.qgeom = true) := by
      rintro x y z ⟨c1, p1, hc1, hp1, hcid1, hpid1, hcp1⟩
        ⟨c2, p2, hc2, hp2, hcid2, hpid2, hcp2⟩
      have hpc : p1 = c2 := idInj p1 hp1 c2 hc2 (hpid1.trans hcid2.symm)
      refine ⟨c1, p2, hc1, hp2, hcid1, hpid2, ?_⟩
      refine htrans p2 hp2 p1 hp1 c1 hc1 ?_ hcp1
      rw [hpc]
      exact hcp2
    have hCP := Relation.TransGen.mono hsub hta
    rw [Relation.transGen_eq_self htrans'] at hCP
    obtain ⟨c, p, hc, hp, hcid, hpid, hcp⟩ := hCP
    have hcp' : c = p := idInj c hc p hp (hcid.trans hpid.symm)
    rw [hcp'] at hcp
    rw [hirr p hp] at hcp
    cases hcp
  · intro pr hpr
    obtain ⟨b, p⟩ := pr
    have hmem := (assignLoop_mem _ none hidpw hbound b p).mp hpr
    obtain ⟨-, c, hfind⟩ := hmem
    rw [find?_sortPairs M b (parentChild M shapes)] at hfind
    have hspec := bestFor_spec M b (parentChild M shapes) (p, c) hfind
    have hcid : c.id = b := bestFor_id M b (parentChild M shapes) (p, c) hfind
    exact ⟨c, hspec.1, hcid, hfind, fun qd hqd hbq => hspec.2 qd hqd hbq⟩

/-- A concrete geometry model: geometry 0 is a large square of area 100 that
properly contains geometry 1, a small square of area 4. -/
def wGeomModel : GeomModel ℕ :=
  { area := fun g => if g = 0 then 100 else if g = 1 then 4 else 0,
    containsProperly := fun p c => p == 0 && c == 1 }

/-- Two shapes: shape 1 on geometry 0 and shape 2 on geometry 1. -/
def wForestShapes : List (CShape ℕ ℕ) := [⟨1, 0, 0⟩, ⟨2, 1, 1⟩]

/-- Witness for claim C1: the forest invariant at the concrete two-shape
nesting above. -/
theorem containment_forest_invariant_witness :
    ((assignParents wGeomModel wForestShapes).map (·.1)).Nodup ∧
    (¬ ∃ a : ℕ, Relation.TransGen
        (fun x y => ∃ pr ∈ assignParents wGeomModel wForestShapes,
          pr.1 = x ∧ pr.2.id = y) a a) ∧
    (∀ pr ∈ assignParents wGeomModel wForestShapes,
       ∃ c, (pr.2, c) ∈ parentChild wGeomModel wForestShapes ∧ c.id = pr.1 ∧
         bestFor wGeomModel pr.1 (parentChild wGeomModel wForestShapes) =
           some (pr.2, c) ∧
         ∀ qd ∈ parentChild wGeomModel wForestShapes, qd.2.id = pr.1 →
           wGeomModel.area pr.2.geom ≤ wGeomModel.area qd.1.geom) :=
  containment_forest_invariant wGeomModel wForestShapes
    (by decide) (by decide) (by decide)

end Flatmap

namespace Flatmap

namespace Classify

/-! ## ShapeClassifier.__init__ pipeline
(`classify.py`, lines 95-191; claims C2, C6)

The per-shape pass computes the geometric features and runs the decision
tree, the joiner pass resolves triangle joiners against registered
connection-end regions, and the merge pass line-merges each connected
component of the joined-connections graph, asserting that the result is a
single `LineString`. -/

/-- The shapely `geom_type` values the classifier distinguishes
(`'Polygon' in geom_type` matches Polygon and MultiPolygon, `'LineString'
in geom_type` matches LineString and MultiLineString). -/
inductive GeomType
  | Polygon
  | MultiPolygon
  | LineString
  | MultiLineString
  | Point
  deriving DecidableEq, Repr

/-- An abstract geometry carrying exactly the features the classifier
inspects: type, area, bounds and the number of boundary coordinates
(4 for a closed triangle). -/
structure Geom where
  gtype : GeomType
  area : ℚ
  bounds : ℚ × ℚ × ℚ × ℚ
  boundaryCoords : ℕ
  deriving DecidableEq, Repr

/-- A shape with the property-bag fields the classifier reads and writes. -/
structure MShape where
  id : String
  shapeType : SHAPE_TYPE
  geometry : Geom
  exclude : Bool := false
  fill : Option String := none
  stroke : Option String := none
  colour : Option String := none
  strokeWidth : Option ℚ := none
  kind : Option String := none
  tileLayer : Option String := none
  lineType : Option String := none
  directional : Bool := false
  propArea : ℚ := 0
  propAspect : ℚ := 0
  propCoverage : ℚ := 0
  propBBoxCoverage : ℚ := 0
  deriving DecidableEq, Repr

/-- The exceptions the classifier construction can raise: the
`assert ... LineString` in `__add_connection` (line 204) and the fatal
`assert` of the merge loop (line 170), which carries the ids of the
offending connection group. -/
inductive ClassifyError
  | notLineString (id : String)
  | joinError (ids : List String)
  deriving DecidableEq, Repr

/-- External collaborators of the classifier: the line finder, the colour
lookup, the authoring setting, the constants from `shapes/constants.py`,
and the geometric/spatial-index capabilities (endpoint buffering, joiner
queries, connected components, union plus line-merge).  `extendGeoms`
stands for `__extend_joined_connections`'s coordinate surgery, which uses
the external `Line` helper of the line-finder module. -/
structure CEnv where
  getLine : MShape → Option Geom
  vascularLookup : Option String → Option String
  authoring : Bool
  componentBorderWidth : ℚ
  connectionStrokeWidth : ℚ
  maxLineWidth : ℚ
  endCircles : Geom → ℚ → Geom × Geom
  buffer : Geom → ℚ → Geom
  extendGeoms : Geom → ℤ → Geom → ℤ → Option (Geom × Geom)
  queryNearest : List Geom → Geom → List ℕ
  connectedComponents : List (String × String) → List (List String)
  lineMergeUnion : List Geom → Geom
  pathwaysTileLayer : String

/-- `'Polygon' in geometry.geom_type`. -/
def polyGeom (g : Geom) : Bool :=
  g.gtype == GeomType.Polygon || g.gtype == GeomType.MultiPolygon

/-- `'LineString' in geometry.geom_type`. -/
def lineGeom (g : Geom) : Bool :=
  g.gtype == GeomType.LineString || g.gtype == GeomType.MultiLineString

/-- The tail of `__add_connection` (`classify.py`, lines 204-214): assert
the geometry is a `LineString`, register the two buffered end regions, and
set the connection properties. -/
def mkConnection (env : CEnv) (maxLineWidth : ℚ) (s : MShape)
    (kind : Option String) :
    Except ClassifyError (MShape × Bool × List (Geom × String × ℤ)) :=
  if s.geometry.gtype = GeomType.LineString then
    let ec := env.endCircles s.geometry maxLineWidth
    Except.ok
      ({ s with
          kind := (match kind with | some k => some k | none => s.kind),
          shapeType := SHAPE_TYPE.CONNECTION,
          tileLayer := some env.pathwaysTileLayer,
          strokeWidth := some env.connectionStrokeWidth,
          lineType := some "line" },
       true,
       [(ec.1, s.id, (0 : ℤ)), (ec.2, s.id, (-1 : ℤ))])
  else Except.error (ClassifyError.notLineString s.id)

/-- `ShapeClassifier.__add_connection` (`classify.py`, lines 193-214): for a
polygonal geometry ask the line finder (failure excludes the shape unless
authoring mode is active, and paints it yellow) and take the connection kind
from the fill colour; otherwise take it from the stroke colour. -/
def add_connection (env : CEnv) (maxLineWidth : ℚ) (s : MShape) :
    Except ClassifyError (MShape × Bool × List (Geom × String × ℤ)) :=
  if polyGeom s.geometry then
    match env.getLine s with
    | none =>
        Except.ok
          ({ s with exclude := !env.authoring, colour := some "yellow" },
           false, [])
    | some line =>
        mkConnection env maxLineWidth { s with geometry := line }
          (env.vascularLookup s.fill)
  else
    mkConnection env maxLineWidth s (env.vascularLookup s.stroke)

/-- The outcome of processing one shape in the first pass. -/
structure ProcOut where
  shape : MShape
  isJoiner : Bool
  ends : List (Geom × String × ℤ)
  deriving DecidableEq, Repr

/-- The post-branch bookkeeping of the per-shape loop (`classify.py`,
lines 146-151): a non-excluded, non-connection shape gets the component
border width (the containment-index entries are collected later from the
same condition). -/
def postShape (env : CEnv) (r : MShape × Bool × List (Geom × String × ℤ)) :
    Except ClassifyError ProcOut :=
  Except.ok
    ⟨if r.1.exclude = false ∧ r.1.shapeType ≠ SHAPE_TYPE.CONNECTION then
       { r.1 with strokeWidth := some env.componentBorderWidth }
     else r.1,
     r.2.1, r.2.2⟩

/-- The per-shape feature computation (`classify.py`, lines 108-125): area,
aspect ratio, coverage and bounding-box coverage, stored on the shape.  The
decision tree reads exactly these stored values. -/
def featureShape (mapArea : ℚ) (s0 : MShape) : MShape :=
  let g := s0.geometry
  let width := |g.bounds.2.2.1 - g.bounds.1|
  let height := |g.bounds.2.2.2 - g.bounds.2.1|
  { s0 with
    propArea := g.area,
    propAspect :=
      if 0 < width ∧ 0 < height then min width height / max width height else 0,
    propCoverage :=
      if 0 < width ∧ 0 < height then g.area / (width * height) else 1,
    propBBoxCoverage := width * height / mapArea }

/-- The decision tree of the per-shape loop (`classify.py`, lines 126-151),
applied to a shape whose features have been computed. -/
def decideShape (env : CEnv) (mpp : ℚ) (nextType : Option SHAPE_TYPE)
    (s : MShape) : Except ClassifyError ProcOut :=
  if s.shapeType = SHAPE_TYPE.UNKNOWN then
    if 0.001 < s.propBBoxCoverage ∧ s.geometry.gtype = GeomType.MultiPolygon then
      postShape env ({ s with shapeType := SHAPE_TYPE.BOUNDARY }, false, [])
    else if nextType = some SHAPE_TYPE.TEXT ∧ s.propCoverage < 0.5 ∧
        s.propBBoxCoverage < 0.001 then
      postShape env ({ s with exclude := true }, false, [])
    else if s.propCoverage < 0.4 ∨ lineGeom s.geometry = true then
      match add_connection env (mpp * env.maxLineWidth) s with
      | Except.error e => Except.error e
      | Except.ok r => postShape env (r.1, false, r.2.2)
    else if 0.001 < s.propBBoxCoverage ∧ 0.9 < s.propCoverage then
      postShape env ({ s with shapeType := SHAPE_TYPE.CONTAINER }, false, [])
    else if s.propBBoxCoverage < 0.0005 ∧ 0.9 < s.propAspect ∧
        0.7 < s.propCoverage ∧ s.propCoverage ≤ 0.85 then
      postShape env ({ s with shapeType := SHAPE_TYPE.COMPONENT }, false, [])
    else if s.propBBoxCoverage < 0.001 ∧ 0.85 < s.propCoverage then
      postShape env ({ s with shapeType := SHAPE_TYPE.COMPONENT }, false, [])
    else if s.geometry.boundaryCoords = 4 then
      postShape env (s, true, [])
    else
      match add_connection env (mpp * env.maxLineWidth) s with
      | Except.error e => Except.error e
      | Except.ok r =>
          if r.2.1 then postShape env (r.1, false, r.2.2)
          else postShape env ({ r.1 with colour := some "yellow" }, false, r.2.2)
  else postShape env (s, false, [])

/-- One iteration of the per-shape loop (`classify.py`, lines 107-151):
feature computation, the decision tree, and the post-branch bookkeeping. -/
def processShape (env : CEnv) (mapArea mpp : ℚ) (nextType : Option SHAPE_TYPE)
    (s0 : MShape) : Except ClassifyError ProcOut :=
  decideShape env mpp nextType (featureShape mapArea s0)

/-- The type of the following shape in input order, used for the
text-background branch (`shapes[n+1].shape_type`). -/
def nextTypes (shapes : List MShape) : List (Option SHAPE_TYPE) :=
  (shapes.drop 1).map (fun s => some s.shapeType) ++ [none]

/-- The whole per-shape loop, with the Python exception propagated. -/
def pass1 (env : CEnv) (mapArea mpp : ℚ) :
    List (MShape × Option SHAPE_TYPE) → Except ClassifyError (List ProcOut)
  | [] => Except.ok []
  | sn :: rest =>
      match processShape env mapArea mpp sn.2 sn.1 with
      | Except.error e => Except.error e
      | Except.ok o =>
          match pass1 env mapArea mpp rest with
          | Except.error e => Except.error e
          | Except.ok os => Except.ok (o :: os)

/-- In-place mutation of the shape object with the given id. -/
def updateShape (store : List MShape) (sid : String) (f : MShape → MShape) :
    List MShape :=
  store.map (fun s => if s.id = sid then f s else s)

/-- Object lookup by id. -/
def findShape (store : List MShape) (sid : String) : Option MShape :=
  store.find? (fun s => decide (s.id = sid))

/-- One joiner of the joiner-resolution loop (`classify.py`, lines 156-166):
exactly two nearest connection-end regions exclude the joiner, extend the
two adjacent connections so they touch, and record a joined-connections
edge; any other count flags the joiner visually and inflates its
geometry. -/
def flagJoiner (env : CEnv) (mpp : ℚ) (store : List MShape) (jid : String) :
    List MShape :=
  updateShape store jid (fun s =>
    { s with colour := some "yellow", stroke := some "red",
             strokeWidth := some env.componentBorderWidth,
             geometry := env.buffer s.geometry (mpp * env.maxLineWidth) })

/-- `__extend_joined_connections` (`classify.py`, lines 193-207): look up the
two adjacent connections and extend their geometries so they touch. -/
def extendJoined (env : CEnv) (store : List MShape)
    (e0 e1 : Geom × String × ℤ) : List MShape :=
  match findShape store e0.2.1, findShape store e1.2.1 with
  | some s0, some s1 =>
      match env.extendGeoms s0.geometry e0.2.2 s1.geometry e1.2.2 with
      | some gg =>
          updateShape
            (updateShape store e0.2.1 (fun s => { s with geometry := gg.1 }))
            e1.2.1 (fun s => { s with geometry := gg.2 })
      | none => store
  | _, _ => store

def joinerStep (env : CEnv) (mpp : ℚ) (endsL : List (Geom × String × ℤ))
    (acc : List MShape × List (String × String)) (jid : String) :
    List MShape × List (String × String) :=
  match findShape acc.1 jid with
  | none => acc
  | some joiner =>
    match env.queryNearest (endsL.map (·.1)) joiner.geometry with
    | [i, j] =>
        match endsL.get? i, endsL.get? j with
        | some e0, some e1 =>
            (extendJoined env
               (updateShape acc.1 jid (fun s => { s with exclude := true })) e0 e1,
             acc.2 ++ [(e0.2.1, e1.2.1)])
        | _, _ =>
            (updateShape acc.1 jid (fun s => { s with exclude := true }), acc.2)
    | _ => (flagJoiner env mpp acc.1 jid, acc.2)

/-- One connected component of the merge loop (`classify.py`, lines
167-175): union and line-merge the member geometries; a result that is not
a single `LineString` is the fatal invariant violation, raised as a
structured error naming the member connection ids; otherwise the first
member receives the merged line, `directional` is propagated, and the other
members are excluded. -/
def mergeStep (env : CEnv) (store : List MShape) (comp : List String) :
    Except ClassifyError (List MShape) :=
  let connections := comp.filterMap (findShape store)
  match connections with
  | [] => Except.ok store
  | c0 :: rest =>
      let merged := env.lineMergeUnion (connections.map (·.geometry))
      if merged.gtype = GeomType.LineString then
        let store1 := updateShape store c0.id (fun s => { s with geometry := merged })
        Except.ok (rest.foldl (fun st c =>
          let st1 :=
            if c.directional then
              updateShape st c0.id (fun s => { s with directional := true })
            else st
          updateShape st1 c.id (fun s => { s with exclude := true })) store1)
      else Except.error (ClassifyError.joinError (connections.map (·.id)))

/-- The classifier state produced by `ShapeClassifier.__init__`: the shape
store, the (id, geometry) entries indexed for containment queries, and the
joined-connections edges. -/
structure InitResult where
  store : List MShape
  indexEntries : List (String × Geom)
  edges : List (String × String)
  deriving DecidableEq, Repr

/-- The merge loop over the connected components of the joined-connections
graph, with the fatal assertion propagated. -/
def mergePhase (env : CEnv) :
    List MShape → List (List String) → Except ClassifyError (List MShape)
  | store, [] => Except.ok store
  | store, comp :: comps =>
      match mergeStep env store comp with
      | Except.error e => Except.error e
      | Except.ok store2 => mergePhase env store2 comps

/-- `ShapeClassifier.__init__` (`classify.py`, lines 96-191) up to the
containment-forest construction (modelled separately by
`Flatmap.assignParents`): per-shape pass, joiner resolution, and the merge
of joined connections. -/
def joinPhase (env : CEnv) (mpp : ℚ) (outs : List ProcOut) :
    List MShape × List (String × String) :=
  ((outs.filter (·.isJoiner)).map (·.shape.id)).foldl
    (joinerStep env mpp (outs.flatMap (·.ends))) (outs.map (·.shape), [])

def classifierInit (env : CEnv) (shapes : List MShape) (mapArea mpp : ℚ) :
    Except ClassifyError InitResult :=
  match pass1 env mapArea mpp (shapes.zip (nextTypes shapes)) with
  | Except.error e => Except.error e
  | Except.ok outs =>
    match mergePhase env (joinPhase env mpp outs).1
        (env.connectedComponents (joinPhase env mpp outs).2) with
    | Except.error e => Except.error e
    | Except.ok store3 =>
        Except.ok ⟨store3,
          outs.filterMap (fun o =>
            if o.shape.exclude = false ∧ o.shape.shapeType ≠ SHAPE_TYPE.CONNECTION
            then some (o.shape.id, o.shape.geometry) else none),
          (joinPhase env mpp outs).2⟩

end Classify

end Flatmap

namespace Flatmap

/-- Concrete classifier environment for exercising the pipeline: no line
finder results, no connection-end regions, no joined components. -/
def cEnv : Classify.CEnv :=
  { getLine := fun _ => none,
    vascularLookup := fun _ => none,
    authoring := false,
    componentBorderWidth := 2,
    connectionStrokeWidth := 8,
    maxLineWidth := 3,
    endCircles := fun g _ => (g, g),
    buffer := fun g _ => g,
    extendGeoms := fun _ _ _ _ => none,
    queryNearest := fun _ _ => [],
    connectedComponents := fun _ => [],
    lineMergeUnion := fun _ =>
      ⟨Classify.GeomType.LineString, 0, (0, 0, 0, 0), 0⟩,
    pathwaysTileLayer := "pathways" }

/-- A triangle (4 closed boundary coordinates) of area 50 in a 10 by 10
bounding box on a map of area 1000000: every branch of the decision tree
before the joiner branch fails, so it becomes a joiner candidate. -/
def triangleShape : Classify.MShape :=
  { id := "j1", shapeType := SHAPE_TYPE.UNKNOWN,
    geometry := ⟨Classify.GeomType.Polygon, 50, (0, 0, 10, 10), 4⟩ }

/-- The triangle after the per-shape pass: features recorded, deferred as a
joiner candidate, border stroke width applied. -/
def cShape1 : Classify.MShape :=
  { id := "j1", shapeType := SHAPE_TYPE.UNKNOWN,
    geometry := ⟨Classify.GeomType.Polygon, 50, (0, 0, 10, 10), 4⟩,
    strokeWidth := some 2,
    propArea := 50, propAspect := 1, propCoverage := 1/2,
    propBBoxCoverage := 1/10000 }

/-- The triangle after joiner resolution found no two nearest connection
ends: flagged yellow with a red stroke, geometry buffered (identity here). -/
def cShape2 : Classify.MShape :=
  { cShape1 with colour := some "yellow", stroke := some "red" }

theorem cshape_process :
    Classify.processShape cEnv 1000000 1 none triangleShape =
      Except.ok ⟨cShape1, true, []⟩ := by
  unfold Classify.processShape Classify.decideShape Classify.featureShape
  norm_num +decide [triangleShape, Classify.lineGeom, Classify.postShape, cEnv,
    cShape1]

/-- The classifier state reached on the single-joiner input. -/
def cRes : Classify.InitResult :=
  ⟨[cShape2], [("j1", triangleShape.geometry)], []⟩

theorem cinit_eval :
    Classify.classifierInit cEnv [triangleShape] 1000000 1 =
      Except.ok cRes := by
  show _ = Except.ok (⟨[cShape2], [("j1", triangleShape.geometry)], []⟩ :
    Classify.InitResult)
  unfold Classify.classifierInit
  rw [show [triangleShape].zip (Classify.nextTypes [triangleShape]) =
      [(triangleShape, none)] from rfl]
  rw [show Classify.pass1 cEnv 1000000 1 [(triangleShape, none)] =
      Except.ok [⟨cShape1, true, []⟩] by
    unfold Classify.pass1
    rw [cshape_process]
    rfl]
  simp only [List.map_cons, List.map_nil, List.flatMap_cons, List.flatMap_nil,
    List.filter, List.filterMap, List.foldl]
  norm_num +decide [Classify.joinPhase, Classify.joinerStep,
    Classify.flagJoiner, Classify.extendJoined, Classify.findShape,
    Classify.updateShape, Classify.mergePhase, cEnv, cShape1, cShape2,
    triangleShape]

/-- Claim C2 is false as stated: a joiner candidate whose nearest
connection-end query does not return exactly two matches is neither excluded
nor given a structural type — it stays `UNKNOWN` (only flagged yellow). -/
theorem classify_untyped_joiner_counterexample :
    ∃ res, Classify.classifierInit cEnv [triangleShape] 1000000 1 =
        Except.ok res ∧
      ∃ s ∈ res.store, s.exclude = false ∧
        s.shapeType = SHAPE_TYPE.UNKNOWN :=
  ⟨cRes, cinit_eval, cShape2, List.mem_singleton.mpr rfl, rfl, rfl⟩

end Flatmap

namespace Flatmap

namespace Classify

/-- The amended exhaustive-typing property: a shape that is not excluded is
either structurally typed or visually flagged yellow. -/
def typedOrFlagged (s : MShape) : Prop :=
  s.exclude = false →
    (s.shapeType ≠ SHAPE_TYPE.UNKNOWN ∨ s.colour = some "yellow")

theorem postShape_spec (env : CEnv) (r : MShape × Bool × List (Geom × String × ℤ))
    (o : ProcOut) (h : postShape env r = Except.ok o) :
    o.shape.id = r.1.id ∧ o.isJoiner = r.2.1 ∧
    (typedOrFlagged r.1 → typedOrFlagged o.shape) := by
  unfold postShape at h
  injection h with h
  subst h
  refine ⟨?_, rfl, ?_⟩
  · dsimp only
    split <;> rfl
  · intro htf
    dsimp only
    split
    · exact htf
    · exact htf

theorem mkConnection_spec (env : CEnv) (mlw : ℚ) (s : MShape)
    (kind : Option String) (r : MShape × Bool × List (Geom × String × ℤ))
    (h : mkConnection env mlw s kind = Except.ok r) :
    r.1.id = s.id ∧ r.2.1 = true ∧ r.1.shapeType = SHAPE_TYPE.CONNECTION := by
  unfold mkConnection at h
  split at h
  · injection h with h
    subst h
    exact ⟨rfl, rfl, rfl⟩
  · cases h

theorem add_connection_spec (env : CEnv) (mlw : ℚ) (s : MShape)
    (r : MShape × Bool × List (Geom × String × ℤ))
    (h : add_connection env mlw s = Except.ok r) :
    r.1.id = s.id ∧ (r.2.1 = true → r.1.shapeType = SHAPE_TYPE.CONNECTION) ∧
    (r.2.1 = false → r.1.colour = some "yellow") := by
  unfold add_connection at h
  split at h
  · cases hgl : env.getLine s with
    | none =>
        rw [hgl] at h
        injection h with h
        subst h
        exact ⟨rfl, fun hc => by simp at hc, fun _ => rfl⟩
    | some line =>
        rw [hgl] at h
        obtain ⟨h1, h2, h3⟩ := mkConnection_spec env mlw _ _ r h
        exact ⟨h1, fun _ => h3, fun hf => by rw [h2] at hf; simp at hf⟩
  · obtain ⟨h1, h2, h3⟩ := mkConnection_spec env mlw _ _ r h
    exact ⟨h1, fun _ => h3, fun hf => by rw [h2] at hf; simp at hf⟩

theorem processShape_spec (env : CEnv) (ma mpp : ℚ) (nt : Option SHAPE_TYPE)
    (s0 : MShape) (o : ProcOut)
    (h : processShape env ma mpp nt s0 = Except.ok o) :
    o.shape.id = s0.id ∧ (o.isJoiner = false → typedOrFlagged o.shape) := by
  unfold processShape at h
  have hid : (featureShape ma s0).id = s0.id := rfl
  have htype : (featureShape ma s0).shapeType = s0.shapeType := rfl
  revert hid htype
  generalize featureShape ma s0 = s at h
  intro hid htype
  unfold decideShape at h
  split at h
  · -- untyped shape: the decision tree
    split at h
    · -- BOUNDARY
      obtain ⟨h1, h2, h3⟩ := postShape_spec env _ o h
      exact ⟨h1.trans hid, fun _ => h3 (fun _ => Or.inl (by simp))⟩
    · split at h
      · -- text background: excluded
        obtain ⟨h1, h2, h3⟩ := postShape_spec env _ o h
        exact ⟨h1.trans hid, fun _ => h3 (fun hex => by simp at hex)⟩
      · split at h
        · -- connection extraction attempt
          cases hac : add_connection env (mpp * env.maxLineWidth) _ with
          | error e => rw [hac] at h; cases h
          | ok r =>
              rw [hac] at h
              obtain ⟨ha1, ha2, ha3⟩ := add_connection_spec env _ _ r hac
              obtain ⟨h1, h2, h3⟩ := postShape_spec env _ o h
              refine ⟨(h1.trans ha1).trans hid, fun _ => h3 ?_⟩
              intro _
              cases hf : r.2.1 with
              | true => exact Or.inl (by rw [ha2 hf]; simp)
              | false => exact Or.inr (ha3 hf)
        · split at h
          · -- CONTAINER
            obtain ⟨h1, h2, h3⟩ := postShape_spec env _ o h
            exact ⟨h1.trans hid, fun _ => h3 (fun _ => Or.inl (by simp))⟩
          · split at h
            · -- COMPONENT (rule 5)
              obtain ⟨h1, h2, h3⟩ := postShape_spec env _ o h
              exact ⟨h1.trans hid, fun _ => h3 (fun _ => Or.inl (by simp))⟩
            · split at h
              · -- COMPONENT (rule 6)
                obtain ⟨h1, h2, h3⟩ := postShape_spec env _ o h
                exact ⟨h1.trans hid, fun _ => h3 (fun _ => Or.inl (by simp))⟩
              · split at h
                · -- joiner candidate: deferred
                  obtain ⟨h1, h2, h3⟩ := postShape_spec env _ o h
                  refine ⟨h1.trans hid, fun hf => ?_⟩
                  rw [h2] at hf
                  cases hf
                · -- catch-all connection attempt
                  cases hac : add_connection env (mpp * env.maxLineWidth) _ with
                  | error e => rw [hac] at h; cases h
                  | ok r =>
                      rw [hac] at h
                      dsimp only at h
                      obtain ⟨ha1, ha2, ha3⟩ := add_connection_spec env _ _ r hac
                      split at h
                      · obtain ⟨h1, h2, h3⟩ := postShape_spec env _ o h
                        refine ⟨(h1.trans ha1).trans hid, fun _ => h3 ?_⟩
                        intro _
                        exact Or.inl (by rw [ha2 (by assumption)]; simp)
                      · obtain ⟨h1, h2, h3⟩ := postShape_spec env _ o h
                        refine ⟨(h1.trans ha1).trans hid, fun _ => h3 ?_⟩
                        intro _
                        exact Or.inr rfl
  · -- already typed
    obtain ⟨h1, h2, h3⟩ := postShape_spec env _ o h
    refine ⟨h1.trans hid, fun _ => h3 (fun _ => Or.inl (by assumption))⟩

end Classify

end Flatmap

namespace Flatmap

namespace Classify

/-- Every shape in the store is typed, yellow-flagged, or excluded. -/
def TFStore (store : List MShape) : Prop :=
  ∀ s ∈ store, typedOrFlagged s

/-- Every shape in the store is typed, yellow-flagged or excluded, except
possibly shapes whose id is still on the pending joiner list. -/
def TFPending (rem : List String) (store : List MShape) : Prop :=
  ∀ s ∈ store, typedOrFlagged s ∨ s.id ∈ rem

theorem tf_exclude (s : MShape) : typedOrFlagged { s with exclude := true } :=
  fun hex => nomatch hex

theorem updateShape_resolve (store : List MShape) (jid : String)
    (rem : List String) (f : MShape → MShape)
    (hf : ∀ s, typedOrFlagged (f s))
    (h : TFPending (jid :: rem) store) :
    TFPending rem (updateShape store jid f) := by
  intro t ht
  unfold updateShape at ht
  obtain ⟨s, hs, he⟩ := List.mem_map.mp ht
  by_cases hc : s.id = jid
  · rw [if_pos hc] at he
    subst he
    exact Or.inl (hf s)
  · rw [if_neg hc] at he
    subst he
    rcases h s hs with htf | hmem
    · exact Or.inl htf
    · rcases List.mem_cons.mp hmem with heq | hm
      · exact absurd heq hc
      · exact Or.inr hm

theorem updateShape_preserve (store : List MShape) (sid : String)
    (rem : List String) (f : MShape → MShape)
    (hf : ∀ s, typedOrFlagged s → typedOrFlagged (f s))
    (hid : ∀ s, (f s).id = s.id)
    (h : TFPending rem store) :
    TFPending rem (updateShape store sid f) := by
  intro t ht
  unfold updateShape at ht
  obtain ⟨s, hs, he⟩ := List.mem_map.mp ht
  by_cases hc : s.id = sid
  · rw [if_pos hc] at he
    subst he
    rcases h s hs with htf | hmem
    · exact Or.inl (hf s htf)
    · exact Or.inr (by rw [hid s]; exact hmem)
  · rw [if_neg hc] at he
    subst he
    exact h s hs

theorem findShape_none_spec (store : List MShape) (sid : String)
    (h : findShape store sid = none) : ∀ s ∈ store, s.id ≠ sid := by
  intro s hs
  have := List.find?_eq_none.mp h s hs
  simpa using this

theorem extendJoined_pending (env : CEnv) (store : List MShape)
    (e0 e1 : Geom × String × ℤ) (rem : List String)
    (h : TFPending rem store) :
    TFPending rem (extendJoined env store e0 e1) := by
  unfold extendJoined
  split
  all_goals try exact h
  split
  · exact updateShape_preserve _ _ _ _ (fun s htf => htf) (fun s => rfl)
      (updateShape_preserve _ _ _ _ (fun s htf => htf) (fun s => rfl) h)
  · exact h

theorem flagJoiner_resolve (env : CEnv) (mpp : ℚ) (store : List MShape)
    (jid : String) (rem : List String) (h : TFPending (jid :: rem) store) :
    TFPending rem (flagJoiner env mpp store jid) :=
  updateShape_resolve store jid rem _ (fun _ _ => Or.inr rfl) h

theorem joinerStep_pending (env : CEnv) (mpp : ℚ)
    (endsL : List (Geom × String × ℤ))
    (acc : List MShape × List (String × String)) (jid : String)
    (rem : List String) (h : TFPending (jid :: rem) acc.1) :
    TFPending rem (joinerStep env mpp endsL acc jid).1 := by
  have hst : TFPending rem
      (updateShape acc.1 jid (fun s => { s with exclude := true })) :=
    updateShape_resolve acc.1 jid rem _ (fun s => tf_exclude s) h
  unfold joinerStep
  cases hfs : findShape acc.1 jid with
  | none =>
      dsimp only
      intro s hs
      rcases h s hs with htf | hmem
      · exact Or.inl htf
      · rcases List.mem_cons.mp hmem with heq | hm
        · exact absurd heq (findShape_none_spec acc.1 jid hfs s hs)
        · exact Or.inr hm
  | some joiner =>
      dsimp only
      split
      all_goals try exact flagJoiner_resolve env mpp acc.1 jid rem h
      split
      all_goals try exact hst
      exact extendJoined_pending env _ _ _ rem hst

theorem joinerFold_pending (env : CEnv) (mpp : ℚ)
    (endsL : List (Geom × String × ℤ)) :
    ∀ (js : List String) (acc : List MShape × List (String × String))
      (rem : List String), TFPending (js ++ rem) acc.1 →
      TFPending rem ((js.foldl (joinerStep env mpp endsL) acc)).1
  | [], _, _, h => h
  | j :: js, acc, rem, h =>
      joinerFold_pending env mpp endsL js (joinerStep env mpp endsL acc j) rem
        (joinerStep_pending env mpp endsL acc j (js ++ rem) h)

theorem pass1_tf (env : CEnv) (ma mpp : ℚ) :
    ∀ (l : List (MShape × Option SHAPE_TYPE)) (outs : List ProcOut),
      pass1 env ma mpp l = Except.ok outs →
      ∀ o ∈ outs, o.isJoiner = false → typedOrFlagged o.shape := by
  intro l
  induction l with
  | nil =>
      intro outs h o ho
      unfold pass1 at h
      injection h with h
      subst h
      exact absurd ho (List.not_mem_nil o)
  | cons sn rest ih =>
      intro outs h o ho hj
      unfold pass1 at h
      cases hp : processShape env ma mpp sn.2 sn.1 with
      | error e => rw [hp] at h; cases h
      | ok o0 =>
          rw [hp] at h
          dsimp only at h
          cases hr : pass1 env ma mpp rest with
          | error e => rw [hr] at h; cases h
          | ok os =>
              rw [hr] at h
              dsimp only at h
              injection h with h
              subst h
              rcases List.mem_cons.mp ho with heq | hm
              · subst heq
                exact (processShape_spec env ma mpp sn.2 sn.1 o hp).2 hj
              · exact ih os hr o hm hj

theorem initial_pending (outs : List ProcOut)
    (h : ∀ o ∈ outs, o.isJoiner = false → typedOrFlagged o.shape) :
    TFPending ((outs.filter (·.isJoiner)).map (·.shape.id))
      (outs.map (·.shape)) := by
  intro s hs
  obtain ⟨o, ho, heq⟩ := List.mem_map.mp hs
  subst heq
  cases hj : o.isJoiner with
  | false => exact Or.inl (h o ho hj)
  | true =>
      exact Or.inr (List.mem_map.mpr
        ⟨o, List.mem_filter.mpr ⟨ho, by simpa using hj⟩, rfl⟩)

theorem joinPhase_tf (env : CEnv) (mpp : ℚ) (outs : List ProcOut)
    (h : ∀ o ∈ outs, o.isJoiner = false → typedOrFlagged o.shape) :
    TFStore (joinPhase env mpp outs).1 := by
  have h2 : TFPending
      (((outs.filter (·.isJoiner)).map (·.shape.id)) ++ [])
      (outs.map (·.shape)) := by
    rw [List.append_nil]
    exact initial_pending outs h
  have h3 : TFPending [] (joinPhase env mpp outs).1 :=
    joinerFold_pending env mpp (outs.flatMap (·.ends)) _ _ [] h2
  intro s hs
  exact (h3 s hs).resolve_right (List.not_mem_nil _)

theorem updateShape_tf (store : List MShape) (sid : String)
    (f : MShape → MShape)
    (hf : ∀ s, typedOrFlagged s → typedOrFlagged (f s))
    (h : TFStore store) : TFStore (updateShape store sid f) := by
  intro t ht
  unfold updateShape at ht
  obtain ⟨s, hs, he⟩ := List.mem_map.mp ht
  subst he
  split
  · exact hf s (h s hs)
  · exact h s hs

theorem foldl_tf (g : List MShape → MShape → List MShape)
    (hg : ∀ st c, TFStore st → TFStore (g st c)) :
    ∀ (l : List MShape) (st : List MShape), TFStore st →
      TFStore (l.foldl g st)
  | [], _, h => h
  | c :: l, st, h => foldl_tf g hg l (g st c) (hg st c h)

theorem mergeStep_tf (env : CEnv) (store : List MShape) (comp : List String)
    (store2 : List MShape) (h : mergeStep env store comp = Except.ok store2)
    (htf : TFStore store) : TFStore store2 := by
  unfold mergeStep at h
  dsimp only at h
  split at h
  · injection h with h
    subst h
    exact htf
  · split at h
    · injection h with h
      subst h
      refine foldl_tf _ (fun st c hst => ?_) _ _
        (updateShape_tf _ _ _ (fun s htfs => htfs) htf)
      refine updateShape_tf _ _ _ (fun s _ => tf_exclude s) ?_
      split
      · exact updateShape_tf _ _ _ (fun s htfs => htfs) hst
      · exact hst
    · cases h

theorem mergePhase_tf (env : CEnv) :
    ∀ (comps : List (List String)) (store store2 : List MShape),
      mergePhase env store comps = Except.ok store2 →
      TFStore store → TFStore store2
  | [], store, store2, h, htf => by
      unfold mergePhase at h
      injection h with h
      subst h
      exact htf
  | comp :: comps, store, store2, h, htf => by
      unfold mergePhase at h
      cases hm : mergeStep env store comp with
      | error e => rw [hm] at h; cases h
      | ok st2 =>
          rw [hm] at h
          dsimp only at h
          exact mergePhase_tf env comps st2 store2 h
            (mergeStep_tf env store comp st2 hm htf)

/-- C2: amended exhaustive-typing property.  When `ShapeClassifier.__init__`
completes, every shape that is not marked excluded either has a structural
type different from `UNKNOWN` or has been flagged with colour `yellow`;
joiner candidates whose nearest-connection-end query did not return exactly
two matches fall in the second class, not the first. -/
theorem classify_nonexcluded_typed_or_flagged (env : CEnv)
    (shapes : List MShape) (ma mpp : ℚ) (res : InitResult)
    (h : classifierInit env shapes ma mpp = Except.ok res) :
    ∀ s ∈ res.store, s.exclude = false →
      s.shapeType ≠ SHAPE_TYPE.UNKNOWN ∨ s.colour = some "yellow" := by
  unfold classifierInit at h
  cases hp : pass1 env ma mpp (shapes.zip (nextTypes shapes)) with
  | error e => rw [hp] at h; cases h
  | ok outs =>
      rw [hp] at h
      dsimp only at h
      cases hm : mergePhase env (joinPhase env mpp outs).1
          (env.connectedComponents (joinPhase env mpp outs).2) with
      | error e => rw [hm] at h; cases h
      | ok store3 =>
          rw [hm] at h
          dsimp only at h
          injection h with h
          subst h
          intro s hs hex
          have h5 : TFStore store3 :=
            mergePhase_tf env _ _ _ hm
              (joinPhase_tf env mpp outs (pass1_tf env ma mpp _ outs hp))
          exact h5 s hs hex

end Classify

end Flatmap

namespace Flatmap

/-- Witness: the C2 theorem applied to the concrete single-joiner run; the
surviving shape is the yellow-flagged joiner. -/
theorem classify_nonexcluded_typed_or_flagged_witness :
    cShape2.shapeType ≠ SHAPE_TYPE.UNKNOWN ∨ cShape2.colour = some "yellow" :=
  Classify.classify_nonexcluded_typed_or_flagged cEnv [triangleShape] 1000000 1
    cRes cinit_eval cShape2 (List.mem_singleton.mpr rfl) rfl

end Flatmap

namespace Flatmap

namespace Classify

/-- C6: the join-merge assertion is the only fatal failure class, and it is
structured.  (1) A merge step fails exactly when the component has members
and the line-merge of the union of their geometries is not a single
`LineString`, and the error names the member connection ids.  (2) The merge
loop propagates the failure instead of continuing.  (3) `__init__`
propagates it out of the classifier.  (4) Failed line extraction is
non-fatal: the shape is excluded (unless authoring) and painted yellow.
(5) An unresolved joiner (nearest-end query count ≠ 2) is non-fatal: the
joiner is only flagged. -/
theorem classify_join_failure_handling (env : CEnv) :
    (∀ (store : List MShape) (comp : List String) (e : ClassifyError),
      mergeStep env store comp = Except.error e ↔
        ∃ c0 rest, comp.filterMap (findShape store) = c0 :: rest ∧
          (env.lineMergeUnion ((c0 :: rest).map (·.geometry))).gtype ≠
            GeomType.LineString ∧
          e = ClassifyError.joinError ((c0 :: rest).map (·.id))) ∧
    (∀ (store : List MShape) (comp : List String) (comps : List (List String))
      (e : ClassifyError), mergeStep env store comp = Except.error e →
      mergePhase env store (comp :: comps) = Except.error e) ∧
    (∀ (shapes : List MShape) (ma mpp : ℚ) (outs : List ProcOut)
      (e : ClassifyError),
      pass1 env ma mpp (shapes.zip (nextTypes shapes)) = Except.ok outs →
      mergePhase env (joinPhase env mpp outs).1
          (env.connectedComponents (joinPhase env mpp outs).2) =
        Except.error e →
      classifierInit env shapes ma mpp = Except.error e) ∧
    (∀ (mlw : ℚ) (s : MShape), polyGeom s.geometry = true →
      env.getLine s = none →
      add_connection env mlw s =
        Except.ok ({ s with exclude := !env.authoring,
                            colour := some "yellow" }, false, [])) ∧
    (∀ (mpp : ℚ) (endsL : List (Geom × String × ℤ))
      (acc : List MShape × List (String × String)) (jid : String)
      (joiner : MShape) (qs : List ℕ), findShape acc.1 jid = some joiner →
      env.queryNearest (endsL.map (·.1)) joiner.geometry = qs →
      qs.length ≠ 2 →
      joinerStep env mpp endsL acc jid = (flagJoiner env mpp acc.1 jid, acc.2)) := by
  refine ⟨?_, ?_, ?_, ?_, ?_⟩
  · intro store comp e
    constructor
    · intro h
      unfold mergeStep at h
      dsimp only at h
      split at h
      · cases h
      · rename_i c0 rest heq
        split at h
        · cases h
        · rename_i hg
          rw [heq] at hg
          injection h with h
          rw [heq] at h
          exact ⟨c0, rest, heq, hg, h.symm⟩
    · rintro ⟨c0, rest, hconn, hg, he⟩
      unfold mergeStep
      dsimp only
      rw [hconn]
      dsimp only
      rw [if_neg hg]
      rw [he]
  · intro store comp comps e h
    unfold mergePhase
    rw [h]
  · intro shapes ma mpp outs e hp hm
    unfold classifierInit
    rw [hp]
    dsimp only
    rw [hm]
  · intro mlw s hpoly hgl
    unfold add_connection
    rw [if_pos hpoly, hgl]
  · intro mpp endsL acc jid joiner qs hfs hq hlen
    unfold joinerStep
    rw [hfs]
    dsimp only
    rw [hq]
    match qs, hlen with
    | [], _ => rfl
    | [i], _ => rfl
    | [i, j], hlen => exact absurd rfl hlen
    | i :: j :: k :: t, _ => rfl

end Classify

end Flatmap

namespace Flatmap

/-- Environment whose line-merge never collapses to a single line. -/
def badEnv : Classify.CEnv :=
  { cEnv with lineMergeUnion := fun _ =>
      ⟨Classify.GeomType.MultiLineString, 0, (0, 0, 0, 0), 0⟩ }

/-- A connection shape taking part in a failing join. -/
def badShape : Classify.MShape := { triangleShape with id := "b1" }

/-- Witness: on a component whose merged geometry stays a
`MultiLineString`, the merge loop raises the structured join error naming
the member connection. -/
theorem classify_join_failure_handling_witness :
    Classify.mergePhase badEnv [badShape] [["b1"]] =
      Except.error (Classify.ClassifyError.joinError ["b1"]) :=
  (Classify.classify_join_failure_handling badEnv).2.1 [badShape] ["b1"] []
    (Classify.ClassifyError.joinError ["b1"])
    (((Classify.classify_join_failure_handling badEnv).1 [badShape] ["b1"]
        (Classify.ClassifyError.joinError ["b1"])).mpr
      ⟨badShape, [], rfl, by decide, rfl⟩)

end Flatmap
